import Mathlib

/-!
# Voxel terrain generator: embedding of `MaterialManager.js` and `TerrainGenerator.js`

Numbers of the program are JavaScript doubles.  The embedding uses rational
numbers (`ℚ`) for them and integers (`ℤ`) for the values the program only ever
produces through `Math.floor` or loop counters.  Where the program floors a
computed coordinate (the river path) every operation is rounded to the nearest
double (`fl64`); elsewhere the arithmetic is exact.  A division, the one
operation of these files that can leave the finite numbers, is modelled with
its non-finite results (`jsDiv`).

`NoiseGenerator.js` is imported by `TerrainGenerator.js` but is not among the
source files; the noise object is a parameter (`NoiseGenerator`).  The
transcendental library functions `Math.sin` and `Math.pow` are parameters as
well (`JSMath`), `Math.random` is a stream of numbers indexed by call count.
-/

namespace VoxelTerrain

/-! ## Numbers -/

/-- Value of a JavaScript division of two finite numbers. -/
inductive JSNumber where
  | num (q : ℚ)
  | posInfinity
  | negInfinity
  | NaN
  deriving DecidableEq

/-- The JavaScript quotient `a / b`: finite when `b` is not zero, otherwise
`Infinity`, `-Infinity` or `NaN` after the sign of `a`. -/
def jsDiv (a b : ℚ) : JSNumber :=
  if b = 0 then
    if 0 < a then JSNumber.posInfinity
    else if a < 0 then JSNumber.negInfinity
    else JSNumber.NaN
  else JSNumber.num (a / b)

/-- The comparison `v < c` against a finite number `c`. -/
def JSNumber.lt (v : JSNumber) (c : ℚ) : Bool :=
  match v with
  | JSNumber.num q => decide (q < c)
  | JSNumber.negInfinity => true
  | JSNumber.posInfinity => false
  | JSNumber.NaN => false

/-- The comparison `v > c` against a finite number `c`. -/
def JSNumber.gt (v : JSNumber) (c : ℚ) : Bool :=
  match v with
  | JSNumber.num q => decide (c < q)
  | JSNumber.posInfinity => true
  | JSNumber.negInfinity => false
  | JSNumber.NaN => false

/-! ## Rounding to a double -/

/-- The integer nearest to `x`, the even one of the two when `x` is half-way. -/
def roundHalfEven (x : ℚ) : ℤ :=
  let f := Int.floor x
  let r := x - f
  if r < 1 / 2 then f
  else if 1 / 2 < r then f + 1
  else if f % 2 = 0 then f
  else f + 1

/-- The result of an arithmetic operation whose exact value is `q`: `q` rounded
to the nearest binary64 number, ties to even.  A number with binary exponent
`e` (`2 ^ e ≤ |q| < 2 ^ (e + 1)`) is rounded to a multiple of `2 ^ (e - 52)`,
and to a multiple of `2 ^ (-1074)` in the subnormal range.  The overflow to
an infinity beyond the largest double is not modelled. -/
def fl64 (q : ℚ) : ℚ :=
  if q = 0 then 0
  else
    let e : ℤ := Int.log 2 |q|
    let k : ℤ := max (e - 52) (-1074)
    (roundHalfEven (q / (2 : ℚ) ^ k) : ℚ) * (2 : ℚ) ^ k

/-- A rational number that is a binary64 number: 53 bits of significand, a
quantum of at least `2 ^ (-1074)`. -/
def IsDouble (d : ℚ) : Prop :=
  ∃ m k : ℤ, |m| < 2 ^ 53 ∧ -1074 ≤ k ∧ d = (m : ℚ) * (2 : ℚ) ^ k

/-! ## MaterialManager.js -/

/-- The eight entries of `MaterialManager.createMaterials`. -/
inductive Material where
  | grass | dirt | stone | deepStone | water | wood | leaves | snow
  deriving DecidableEq, Repr

/-- `MaterialManager.getMaterialForHeight(height, maxHeight, surfaceHeight, blockType)`. -/
def getMaterialForHeight (height maxHeight surfaceHeight : ℚ) (blockType : String) : Material :=
  if blockType = "water" then Material.water
  else if blockType = "wood" then Material.wood
  else if blockType = "leaves" then Material.leaves
  else if blockType = "snow" then Material.snow
  else
    let relativeHeight := jsDiv height maxHeight
    let distanceFromSurface := surfaceHeight - height
    -- Snow on high peaks
    if height = surfaceHeight ∧ surfaceHeight > maxHeight * 0.8 then Material.snow
    -- Surface blocks (grass) - but not on very high mountains
    else if height = surfaceHeight ∧ surfaceHeight > maxHeight * 0.3
        ∧ surfaceHeight ≤ maxHeight * 0.8 then Material.grass
    -- Stone surface on high mountains
    else if height = surfaceHeight ∧ surfaceHeight > maxHeight * 0.6 then Material.stone
    -- Dirt layer (1-3 blocks below surface)
    else if distanceFromSurface > 0 ∧ distanceFromSurface ≤ 3 then Material.dirt
    -- Deep stone
    else if relativeHeight.lt 0.2 = true then Material.deepStone
    -- Regular stone
    else Material.stone

/-! ## The classifier as the specification words it -/

/-- Feature tag of the specification's classifier. -/
inductive FeatureTag where
  | none | water | wood | leaves
  deriving DecidableEq, Repr

/-- The `blockType` string the batcher passes for a feature tag. -/
def FeatureTag.blockType : FeatureTag → String
  | FeatureTag.none => "terrain"
  | FeatureTag.water => "water"
  | FeatureTag.wood => "wood"
  | FeatureTag.leaves => "leaves"

/-- One rule of the specification's list: a guard and the category it yields. -/
structure Rule where
  guard : Bool
  result : Material

/-- First match wins; `dflt` when no guard holds. -/
def firstMatch (dflt : Material) : List Rule → Material
  | [] => dflt
  | r :: rs => if r.guard then r.result else firstMatch dflt rs

/-- The six ordered rules of section 4.5 for a voxel without a feature tag. -/
def terrainRules (y maxHeight surfaceHeight : ℚ) : List Rule :=
  [ ⟨decide (y = surfaceHeight ∧ surfaceHeight > 0.8 * maxHeight), Material.snow⟩,
    ⟨decide (y = surfaceHeight ∧ 0.3 * maxHeight < surfaceHeight
        ∧ surfaceHeight ≤ 0.8 * maxHeight), Material.grass⟩,
    ⟨decide (y = surfaceHeight ∧ surfaceHeight > 0.6 * maxHeight), Material.stone⟩,
    ⟨decide (0 < surfaceHeight - y ∧ surfaceHeight - y ≤ 3), Material.dirt⟩,
    ⟨(jsDiv y maxHeight).lt 0.2, Material.deepStone⟩ ]

/-- The classifier `classify(y, maxHeight, surfaceHeight, featureTag)` of section 4.5. -/
def classify (y maxHeight surfaceHeight : ℚ) : FeatureTag → Material
  | FeatureTag.water => Material.water
  | FeatureTag.wood => Material.wood
  | FeatureTag.leaves => Material.leaves
  | FeatureTag.none => firstMatch Material.stone (terrainRules y maxHeight surfaceHeight)

/-! ## TerrainGenerator.js: collaborators that are not in the source files -/

/-- The noise object handed to the generator (`NoiseGenerator.js` is not among
the source files): its two methods, on finite numbers. -/
structure NoiseGenerator where
  noise : ℚ → ℚ → ℚ → ℚ
  octaveNoise : ℚ → ℚ → ℚ → ℚ → ℚ → ℚ → ℚ

/-- The two transcendental functions of the JavaScript `Math` object the
generator calls; their results are doubles, hence rational numbers. -/
structure JSMath where
  sin : ℚ → ℚ
  pow : ℚ → ℚ → ℚ

/-- The double `Math.PI`. -/
def MathPI : ℚ := 884279719003555 / 281474976710656

/-- The test `Math.sqrt(a) <= b` in exact arithmetic: the root of a negative
number is `NaN` and compares false, otherwise the root is at most `b` exactly
when `b` is non-negative and `a ≤ b * b`. -/
def sqrtLe (a b : ℚ) : Bool := decide (0 ≤ a ∧ 0 ≤ b ∧ a ≤ b * b)

/-! ## Grids (arrays of arrays) -/

/-- The read `g[x][z]`; `none` when the entry does not exist. -/
def at2 {α : Type} (g : List (List α)) (x z : Nat) : Option α :=
  (g[x]?).bind fun row => row[z]?

/-- The write `g[x][z] = v` at an existing entry. -/
def set2 {α : Type} (g : List (List α)) (x z : Nat) (v : α) : List (List α) :=
  match g[x]? with
  | some row => g.set x (row.set z v)
  | none => g

/-- A grid of `size` rows of `size` entries. -/
def IsGrid {α : Type} (size : Nat) (g : List (List α)) : Prop :=
  g.length = size ∧ ∀ row ∈ g, row.length = size

instance instDecidableIsGrid {α : Type} (size : Nat) (g : List (List α)) :
    Decidable (IsGrid size g) := by
  unfold IsGrid; infer_instance

/-- The values of a loop `for (let d = -r; d <= r; d++)`. -/
def offsets (r : Nat) : List ℤ :=
  (List.range (2 * r + 1)).map fun (k : Nat) => (k : ℤ) - (r : ℤ)

/-! ## TerrainGenerator.generateHeightMap -/

/-- The body of the two loops of `generateHeightMap`: the value stored in
`heightMap[x][z]`. -/
def columnHeight (M : JSMath) (noise : NoiseGenerator)
    (maxHeight noiseScale mountainHeight : ℚ) (x z : Nat) : ℤ :=
  -- Base terrain noise
  let baseNoise := noise.octaveNoise (x * noiseScale) (z * noiseScale) 0 4 0.5 2.0
  -- Mountain noise (larger scale, more dramatic)
  let mountainNoise :=
    noise.octaveNoise (x * noiseScale * 0.3) (z * noiseScale * 0.3) 100 6 0.6 2.0
  -- Combine base terrain with mountains
  let noiseValue := baseNoise + (mountainNoise * mountainHeight * 0.5)
  -- Normalize to 0-1 range
  let noiseValue := (noiseValue + 1) / 2
  let noiseValue := max 0 (min 1 noiseValue)
  -- Apply some terrain shaping
  let noiseValue := M.pow noiseValue 1.5
  -- Convert to height
  let height := Int.floor (noiseValue * maxHeight * mountainHeight)
  max 1 height

/-- `generateHeightMap(noise, size, maxHeight, noiseScale, mountainHeight)`. -/
def generateHeightMap (M : JSMath) (noise : NoiseGenerator) (size : Nat)
    (maxHeight noiseScale mountainHeight : ℚ) : List (List ℤ) :=
  (List.range size).map fun x => (List.range size).map fun z =>
    columnHeight M noise maxHeight noiseScale mountainHeight x z

/-! ## TerrainGenerator.generateRiver -/

/-- A point `{x, z}` of the river path. -/
structure Point where
  x : ℤ
  z : ℤ
  deriving DecidableEq, Repr

/-- The point pushed on `riverPath` at loop index `i`.  The products and sums
are floored, and the floor of a rounded result can differ from the floor of the
exact one (`(14 / 20) * 90` is `62.99999999999999`), so every operation is
rounded to a double here, and the literals `0.3`, `0.2` and `0.1` are the
doubles nearest to them. -/
def riverPoint (M : JSMath) (noise : NoiseGenerator) (size : Nat) (i : Nat) : Point :=
  let segments : ℚ := 20
  let t := fl64 (i / segments)
  let baseX := fl64 (t * size)
  let baseZ :=
    fl64 (fl64 (size * fl64 0.3)
      + fl64 (fl64 (M.sin (fl64 (fl64 (t * MathPI) * 2)) * size) * fl64 0.2))
  -- Add noise to make river more natural
  let noiseOffset := fl64 (fl64 (noise.noise (fl64 (t * 10)) 0 200 * size) * fl64 0.1)
  { x := Int.floor (fl64 (baseX + noiseOffset)), z := Int.floor baseZ }

/-- The array `riverPath`: the points for `i = 0 .. segments`, `segments = 20`. -/
def riverPath (M : JSMath) (noise : NoiseGenerator) (size : Nat) : List Point :=
  (List.range (20 + 1)).map (riverPoint M noise size)

/-- The body of the two inner loops of the drawing step, at offsets `dx`, `dz`. -/
def drawCell (size riverWidth : Nat) (point : Point) (riverMap : List (List Bool))
    (dx dz : ℤ) : List (List Bool) :=
  let x := point.x + dx
  let z := point.z + dz
  if x ≥ 0 ∧ x < size ∧ z ≥ 0 ∧ z < size then
    if sqrtLe (dx * dx + dz * dz) riverWidth = true then set2 riverMap x.toNat z.toNat true
    else riverMap
  else riverMap

/-- The callback of `riverPath.forEach`: the disc of one path point. -/
def drawPoint (size riverWidth : Nat) (riverMap : List (List Bool)) (point : Point) :
    List (List Bool) :=
  (offsets riverWidth).foldl
    (fun rm dx => (offsets riverWidth).foldl (fun rm dz => drawCell size riverWidth point rm dx dz) rm)
    riverMap

/-- `generateRiver(noise, size, riverWidth)`. -/
def generateRiver (M : JSMath) (noise : NoiseGenerator) (size riverWidth : Nat) :
    List (List Bool) :=
  -- Initialize river map
  let riverMap := (List.range size).map fun _ => (List.range size).map fun _ => false
  -- Draw river with specified width
  (riverPath M noise size).foldl (drawPoint size riverWidth) riverMap

/-! ## TerrainGenerator.applyRiverToTerrain -/

/-- The loop body of `applyRiverToTerrain` at column `(x, z)`. -/
def carveCell (riverMap : List (List Bool)) (heightMap : List (List ℤ)) (x z : Nat) :
    Option (List (List ℤ)) := do
  let river ← at2 riverMap x z
  if river = true then
    -- Lower terrain for river
    let h ← at2 heightMap x z
    pure (set2 heightMap x z (max 1 (h - 3)))
  else pure heightMap

/-- `applyRiverToTerrain(heightMap, riverMap, size)`: the height grid after the
in-place update; `none` when a read falls outside an array. -/
def applyRiverToTerrain (heightMap : List (List ℤ)) (riverMap : List (List Bool))
    (size : Nat) : Option (List (List ℤ)) :=
  (List.range size).foldlM
    (fun hm x => (List.range size).foldlM (fun hm z => carveCell riverMap hm x z) hm)
    heightMap

/-! ## TerrainGenerator.generateTrees -/

/-- An entry `{x, z, baseHeight, height}` of the tree list; the trunk height is
a number of blocks. -/
structure Tree where
  x : ℤ
  z : ℤ
  baseHeight : ℤ
  height : Nat
  deriving DecidableEq, Repr

/-- The values of a loop `for (let x = 2; x < size - 2; x++)`. -/
def interiorRange (size : Nat) : List Nat :=
  (List.range size).filter fun x => decide (2 ≤ x ∧ x + 2 < size)

/-- The loop body of `generateTrees` at column `(x, z)`.  The trunk height
`3 + Math.floor(Math.abs(..) * 4)` adds the floor of a non-negative number, kept
as a natural number. -/
def treeCell (noise : NoiseGenerator) (heightMap : List (List ℤ)) (maxHeight treeChance : ℚ)
    (trees : List Tree) (x z : Nat) : Option (List Tree) := do
  let height ← at2 heightMap x z
  let relativeHeight := jsDiv height maxHeight
  -- Trees grow on grass (mid-level terrain) and not too high
  if relativeHeight.gt 0.3 = true ∧ relativeHeight.lt 0.7 = true then
    let treeNoise := noise.noise (x * 0.1) (z * 0.1) 300
    if treeNoise > 1 - treeChance * 2 then
      -- Random tree height between 3-6 blocks
      let treeHeight := 3 + Int.toNat (Int.floor (|noise.noise x z 400| * 4))
      pure (trees ++ [{ x := x, z := z, baseHeight := height, height := treeHeight }])
    else pure trees
  else pure trees

/-- `generateTrees(noise, heightMap, size, maxHeight, treeCount)`; `none` when a
read falls outside the height grid. -/
def generateTrees (noise : NoiseGenerator) (heightMap : List (List ℤ)) (size : Nat)
    (maxHeight treeCount : ℚ) : Option (List Tree) :=
  let treeChance := treeCount / 100
  (interiorRange size).foldlM
    (fun trees x =>
      (interiorRange size).foldlM (fun trees z => treeCell noise heightMap maxHeight treeChance trees x z)
        trees)
    []

/-! ## TerrainGenerator.createTerrainMesh: collecting the blocks -/

/-- A block position `{x, y, z}`. -/
structure Block where
  x : ℤ
  y : ℤ
  z : ℤ
  deriving DecidableEq, Repr

/-- The colour given to each material by `createMaterials`. -/
def Material.color : Material → Nat
  | Material.grass => 0x4a7c59
  | Material.dirt => 0x8b6914
  | Material.stone => 0x666666
  | Material.deepStone => 0x444444
  | Material.water => 0x4a90e2
  | Material.wood => 0x8b4513
  | Material.leaves => 0x228b22
  | Material.snow => 0xffffff

/-- `getMaterialKey(material)`: the colour written in base 16, lower case.
`material.color.getHex()` is taken to be the number the material was created
with. -/
def getMaterialKey (material : Material) : String :=
  String.mk (Nat.toDigits 16 material.color)

/-- The map `blocksByMaterial`: keys in insertion order, each with its array of
positions. -/
abbrev BlockMap := List (String × List Block)

/-- The three statements `if (!m.has(key)) m.set(key, []); m.get(key).push(b)`. -/
def BlockMap.add : BlockMap → String → Block → BlockMap
  | [], key, b => [(key, [b])]
  | (k, bs) :: rest, key, b =>
    if k = key then (k, bs ++ [b]) :: rest else (k, bs) :: BlockMap.add rest key b

/-- The array `m.get(key)`, empty when the key is absent. -/
def BlockMap.group : BlockMap → String → List Block
  | [], _ => []
  | (k, bs) :: rest, key => if k = key then bs else BlockMap.group rest key

/-- Number of positions over all groups. -/
def BlockMap.total (m : BlockMap) : Nat := (m.map fun e => e.2.length).sum

/-- The values of a loop `for (let y = lo; y <= hi; y++)`. -/
def fromTo (lo hi : ℤ) : List ℤ :=
  (List.range (hi + 1 - lo).toNat).map fun (k : Nat) => lo + (k : ℤ)

/-- First loop nest, body at column `(x, z)`: the column fill `y = 0 .. surfaceHeight`. -/
def fillCell (heightMap : List (List ℤ)) (maxHeight : ℚ) (m : BlockMap) (x z : Nat) :
    Option BlockMap := do
  let surfaceHeight ← at2 heightMap x z
  pure ((fromTo 0 surfaceHeight).foldl
    (fun (m : BlockMap) (y : ℤ) =>
      let material := getMaterialForHeight (y : ℚ) maxHeight (surfaceHeight : ℚ) "terrain"
      m.add (getMaterialKey material) { x := x, y := y, z := z })
    m)

/-- Second loop nest, body at column `(x, z)`: the water block of a river column. -/
def waterCell (heightMap : List (List ℤ)) (riverMap : List (List Bool)) (maxHeight : ℚ)
    (m : BlockMap) (x z : Nat) : Option BlockMap := do
  let river ← at2 riverMap x z
  if river = true then
    let h ← at2 heightMap x z
    let waterHeight := h + 1
    let material := getMaterialForHeight 0 maxHeight 0 "water"
    pure (m.add (getMaterialKey material) { x := x, y := waterHeight, z := z })
  else pure m

/-- Trunk loop of one tree. -/
def trunk (maxHeight : ℚ) (tree : Tree) (m : BlockMap) : BlockMap :=
  (fromTo 1 tree.height).foldl
    (fun m y =>
      let material := getMaterialForHeight 0 maxHeight 0 "wood"
      m.add (getMaterialKey material) { x := tree.x, y := tree.baseHeight + y, z := tree.z })
    m

/-- Body of the three canopy loops at offset `(dx, dy, dz)`.  The state is the
map and the number of `Math.random()` calls made so far; the call is made only
when the distance test has passed (`&&` evaluates left to right). -/
def leafCell (random : Nat → ℚ) (size : Nat) (maxHeight : ℚ) (tree : Tree)
    (st : BlockMap × Nat) (dx dy dz : ℤ) : BlockMap × Nat :=
  let leavesY := tree.baseHeight + tree.height
  let leavesRadius : ℚ := 2
  if sqrtLe (dx * dx + dy * dy + dz * dz) leavesRadius = true then
    let r := random st.2
    let calls := st.2 + 1
    if r > 0.3 then
      let leafX := tree.x + dx
      let leafY := leavesY + dy
      let leafZ := tree.z + dz
      if leafX ≥ 0 ∧ leafX < size ∧ leafZ ≥ 0 ∧ leafZ < size then
        let material := getMaterialForHeight 0 maxHeight 0 "leaves"
        ((st.1).add (getMaterialKey material) { x := leafX, y := leafY, z := leafZ }, calls)
      else (st.1, calls)
    else (st.1, calls)
  else st

/-- Canopy loops of one tree (`leavesRadius = 2`, `dy` from -1 to 2). -/
def canopy (random : Nat → ℚ) (size : Nat) (maxHeight : ℚ) (tree : Tree)
    (st : BlockMap × Nat) : BlockMap × Nat :=
  (fromTo (-2) 2).foldl
    (fun st dx => (fromTo (-1) 2).foldl
      (fun st dy => (fromTo (-2) 2).foldl
        (fun st dz => leafCell random size maxHeight tree st dx dy dz) st) st)
    st

/-- The callback of `treePositions.forEach`: trunk, then canopy. -/
def addTree (random : Nat → ℚ) (size : Nat) (maxHeight : ℚ) (st : BlockMap × Nat)
    (tree : Tree) : BlockMap × Nat :=
  canopy random size maxHeight tree (trunk maxHeight tree st.1, st.2)

/-- `createTerrainMesh(heightMap, riverMap, treePositions, size, maxHeight)` up
to the map `blocksByMaterial` it has collected when the three loop nests are
done (one instanced mesh is then built per entry of that map).  `random n` is
the value of the `n`-th call of `Math.random()`; `none` when a read falls
outside a grid. -/
def createTerrainMesh (random : Nat → ℚ) (heightMap : List (List ℤ))
    (riverMap : List (List Bool)) (treePositions : List Tree) (size : Nat) (maxHeight : ℚ) :
    Option BlockMap := do
  -- Collect terrain blocks by material type
  let m1 ← (List.range size).foldlM
    (fun m x => (List.range size).foldlM (fun m z => fillCell heightMap maxHeight m x z) m) []
  -- Add water blocks for rivers
  let m2 ← (List.range size).foldlM
    (fun m x => (List.range size).foldlM (fun m z => waterCell heightMap riverMap maxHeight m x z) m)
    m1
  -- Add tree blocks
  pure (treePositions.foldl (addTree random size maxHeight) (m2, 0)).1

/-! ## Loop nests as one loop -/

/-- The pairs `(x, z)` visited by a loop over `xs` with an inner loop over `zs`,
in the order they are visited. -/
def cells {α β : Type} (xs : List α) (zs : List β) : List (α × β) :=
  xs.flatMap fun x => zs.map fun z => (x, z)

/-! ## The river path as the specification words it -/

/-- Path point `p_i` of section 4.3, evaluated exactly: with `t = i / 20`, its x is
`floor(t * size + noise(10 t, 0, 200) * size * 0.1)` and its z is
`floor(size * 0.3 + sin(2 π t) * size * 0.2)`. -/
def pathPoint (M : JSMath) (noise : NoiseGenerator) (size : Nat) (i : Nat) : Point :=
  let t : ℚ := (i : ℚ) / 20
  { x := Int.floor (t * size + noise.noise (10 * t) 0 200 * size * 0.1),
    z := Int.floor (size * 0.3 + M.sin (2 * MathPI * t) * size * 0.2) }

/-! ## Example inputs -/

/-- A noise object whose two methods return the constant `c`. -/
def constNoise (c : ℚ) : NoiseGenerator :=
  { noise := fun _ _ _ => c, octaveNoise := fun _ _ _ _ _ _ => c }

/-- A `Math` object for examples: `sin` returns 0, which is `Math.sin(0)`, and
`pow(v, e)` returns `v`. -/
def exampleMath : JSMath :=
  { sin := fun _ => 0, pow := fun v _ => v }

/-! ## The blocks collected by createTerrainMesh, listed in the order they are pushed -/

/-- Pushing a list of (key, position) pairs one after the other. -/
def addAll (m : BlockMap) (l : List (String × Block)) : BlockMap :=
  l.foldl (fun m e => m.add e.1 e.2) m

/-- The height of column `(x, z)`, 0 outside the grid. -/
def heightAt (heightMap : List (List ℤ)) (x z : Nat) : ℤ := (at2 heightMap x z).getD 0

/-- The mask entry of column `(x, z)`, false outside the grid. -/
def riverAt (riverMap : List (List Bool)) (x z : Nat) : Bool := (at2 riverMap x z).getD false

/-- Terrain fill of column `(x, z)`: one classified block per `y = 0 .. surfaceHeight`. -/
def fillBlocks (heightMap : List (List ℤ)) (maxHeight : ℚ) (x z : Nat) : List (String × Block) :=
  (fromTo 0 (heightAt heightMap x z)).map fun (y : ℤ) =>
    (getMaterialKey
        (getMaterialForHeight (y : ℚ) maxHeight ((heightAt heightMap x z : ℤ) : ℚ) "terrain"),
      { x := x, y := y, z := z })

/-- Water cap of column `(x, z)`: one block at `surfaceHeight + 1` on a river column. -/
def waterBlocks (heightMap : List (List ℤ)) (riverMap : List (List Bool)) (x z : Nat) :
    List (String × Block) :=
  if riverAt riverMap x z = true then
    [(getMaterialKey Material.water, { x := x, y := heightAt heightMap x z + 1, z := z })]
  else []

/-- Trunk of a tree: `height` wood blocks above the base. -/
def trunkBlocks (tree : Tree) : List (String × Block) :=
  (fromTo 1 tree.height).map fun (y : ℤ) =>
    (getMaterialKey Material.wood, { x := tree.x, y := tree.baseHeight + y, z := tree.z })

/-- The candidate canopy offsets `(dx, dy, dz)`, `dx, dz` in `[-2, 2]`, `dy` in
`[-1, 2]`, with `dx² + dy² + dz² ≤ 4`, in loop order (dx outer, then dy, then dz). -/
def leavesOffsets : List (ℤ × ℤ × ℤ) :=
  (cells (fromTo (-2) 2) (cells (fromTo (-1) 2) (fromTo (-2) 2))).filter fun o =>
    decide (o.1 ^ 2 + o.2.1 ^ 2 + o.2.2 ^ 2 ≤ 4)

/-- A candidate offset `e.2` that receives the random draw number `e.1` becomes a
leaf block when the draw exceeds 0.3 and the block is inside the grid in x and z. -/
def leafAccepted (random : Nat → ℚ) (size : Nat) (tree : Tree) (e : Nat × ℤ × ℤ × ℤ) : Bool :=
  decide (random e.1 > 0.3
    ∧ (tree.x + e.2.1 ≥ 0 ∧ tree.x + e.2.1 < size
        ∧ tree.z + e.2.2.2 ≥ 0 ∧ tree.z + e.2.2.2 < size))

/-- Canopy of a tree when `calls` random draws have been made before it. -/
def canopyBlocks (random : Nat → ℚ) (size : Nat) (tree : Tree) (calls : Nat) :
    List (String × Block) :=
  ((leavesOffsets.enumFrom calls).filter (leafAccepted random size tree)).map
    fun e => (getMaterialKey Material.leaves,
      { x := tree.x + e.2.1, y := tree.baseHeight + tree.height + e.2.2.1, z := tree.z + e.2.2.2 })

/-- Number of canopy blocks of a tree list: tree number `i` meets the draws
`32 i, 32 i + 1, ...`, one per candidate offset. -/
def canopyCount (random : Nat → ℚ) (size : Nat) (trees : List Tree) : Nat :=
  (trees.enum.map fun it =>
    ((leavesOffsets.enumFrom (32 * it.1)).filter (leafAccepted random size it.2)).length).sum

/-- The blocks of the first loop nest, columns in raster order. -/
def terrainBlocks (heightMap : List (List ℤ)) (maxHeight : ℚ) (size : Nat) :
    List (String × Block) :=
  (cells (List.range size) (List.range size)).flatMap fun p =>
    fillBlocks heightMap maxHeight p.1 p.2

/-- The blocks of the second loop nest, columns in raster order. -/
def riverBlocks (heightMap : List (List ℤ)) (riverMap : List (List Bool)) (size : Nat) :
    List (String × Block) :=
  (cells (List.range size) (List.range size)).flatMap fun p =>
    waterBlocks heightMap riverMap p.1 p.2

/-- The blocks of the trees, tree by tree, trunk before canopy; tree number `i`
starts after `32 i` random draws. -/
def treeBlocks (random : Nat → ℚ) (size : Nat) (trees : List Tree) (first : Nat) :
    List (String × Block) :=
  (trees.enumFrom first).flatMap fun it =>
    trunkBlocks it.2 ++ canopyBlocks random size it.2 (32 * it.1)

/-! ## TerrainGenerator.getMaterialByKey -/

/-- The materials in the order of `Object.entries(materials)`, the order in
which `createMaterials` lists them. -/
def materialEntries : List Material :=
  [Material.grass, Material.dirt, Material.stone, Material.deepStone,
   Material.water, Material.wood, Material.leaves, Material.snow]

/-- Value of a base-16 digit, `none` for any other character. -/
def hexDigit (c : Char) : Option Nat :=
  if '0' ≤ c ∧ c ≤ '9' then some (c.toNat - '0'.toNat)
  else if 'a' ≤ c ∧ c ≤ 'f' then some (c.toNat - 'a'.toNat + 10)
  else if 'A' ≤ c ∧ c ≤ 'F' then some (c.toNat - 'A'.toNat + 10)
  else none

/-- The leading base-16 digits of a character list, most significant first. -/
def hexPrefix : List Char → List Nat
  | [] => []
  | c :: cs =>
    match hexDigit c with
    | some d => d :: hexPrefix cs
    | none => []

/-- `parseInt(key, 16)`: leading white space is skipped, then an optional sign
and an optional `0x`, then the longest run of base-16 digits is read; `none`
stands for `NaN`, the result when there is no digit. -/
def parseInt16 (key : String) : Option ℤ :=
  let cs := key.toList.dropWhile Char.isWhitespace
  let signed : Bool × List Char :=
    match cs with
    | '-' :: rest => (true, rest)
    | '+' :: rest => (false, rest)
    | rest => (false, rest)
  let body : List Char :=
    match signed.2 with
    | '0' :: 'x' :: rest => rest
    | '0' :: 'X' :: rest => rest
    | rest => rest
  let digits := hexPrefix body
  if digits = [] then none
  else
    let value : ℤ := ((digits.foldl (fun acc d => 16 * acc + d) 0 : Nat) : ℤ)
    some (if signed.1 = true then -value else value)

/-- `getMaterialByKey(key)`: the first material whose colour equals the parsed
key, `materials.stone` when there is none. -/
def getMaterialByKey (key : String) : Material :=
  let hex := parseInt16 key
  match materialEntries.find? fun material => decide (some (material.color : ℤ) = hex) with
  | some material => material
  | none => Material.stone -- fallback

/-! ## TerrainGenerator.generateTerrain -/

/-- The record `params` read by `generateTerrain`. -/
structure TerrainParams where
  size : Nat
  maxHeight : ℚ
  noiseScale : ℚ
  seed : ℤ
  mountainHeight : ℚ
  treeCount : ℚ
  riverWidth : Nat

/-- `generateTerrain(params)` up to the map of blocks collected by
`createTerrainMesh`.  `newNoiseGenerator seed` is `new NoiseGenerator(seed)`;
the height grid handed to the later steps is the one `applyRiverToTerrain` has
updated. -/
def generateTerrain (M : JSMath) (newNoiseGenerator : ℤ → NoiseGenerator) (random : Nat → ℚ)
    (params : TerrainParams) : Option BlockMap := do
  -- Initialize noise generator
  let noise := newNoiseGenerator params.seed
  -- Generate height map
  let heightMap :=
    generateHeightMap M noise params.size params.maxHeight params.noiseScale params.mountainHeight
  -- Generate river path
  let riverMap := generateRiver M noise params.size params.riverWidth
  -- Apply river to height map
  let heightMap ← applyRiverToTerrain heightMap riverMap params.size
  -- Generate tree positions
  let treePositions ← generateTrees noise heightMap params.size params.maxHeight params.treeCount
  -- Create terrain mesh
  createTerrainMesh random heightMap riverMap treePositions params.size params.maxHeight

/-! ## Theorems -/

/-- C1: for every input, `getMaterialForHeight` agrees with the specification's
first-match rule list (a feature tag water, wood or leaves decides alone; the
tag `terrain` runs the six ordered rules), and its value is one of the eight
categories. -/
theorem getMaterialForHeight_eq_classify (y maxHeight surfaceHeight : ℚ) (tag : FeatureTag) :
    getMaterialForHeight y maxHeight surfaceHeight tag.blockType
        = classify y maxHeight surfaceHeight tag
      ∧ getMaterialForHeight y maxHeight surfaceHeight tag.blockType
        ∈ [Material.grass, Material.dirt, Material.stone, Material.deepStone,
           Material.water, Material.wood, Material.leaves, Material.snow] := by
  refine ⟨?_, ?_⟩
  · cases tag
    · simp only [FeatureTag.blockType, getMaterialForHeight, classify, terrainRules, firstMatch]
      have e1 : ("terrain" = "water") = False := by decide
      have e2 : ("terrain" = "wood") = False := by decide
      have e3 : ("terrain" = "leaves") = False := by decide
      have e4 : ("terrain" = "snow") = False := by decide
      simp only [e1, e2, e3, e4, if_false, mul_comm maxHeight, decide_eq_true_eq]
    · simp [FeatureTag.blockType, getMaterialForHeight, classify]
    · simp [FeatureTag.blockType, getMaterialForHeight, classify]
    · simp [FeatureTag.blockType, getMaterialForHeight, classify]
  · cases getMaterialForHeight y maxHeight surfaceHeight tag.blockType <;> simp


/-! ### Rounding to a double -/

theorem roundHalfEven_cases (x : ℚ) :
    (roundHalfEven x = Int.floor x ∧ x - Int.floor x ≤ 1 / 2)
      ∨ (roundHalfEven x = Int.floor x + 1 ∧ 1 / 2 ≤ x - Int.floor x) := by
  unfold roundHalfEven
  simp only
  by_cases h1 : x - (Int.floor x : ℚ) < 1 / 2
  · rw [if_pos h1]
    exact Or.inl ⟨rfl, le_of_lt h1⟩
  · rw [if_neg h1]
    by_cases h2 : 1 / 2 < x - (Int.floor x : ℚ)
    · rw [if_pos h2]
      exact Or.inr ⟨rfl, le_of_lt h2⟩
    · rw [if_neg h2]
      have he : x - (Int.floor x : ℚ) = 1 / 2 := le_antisymm (not_lt.1 h2) (not_lt.1 h1)
      by_cases h3 : Int.floor x % 2 = 0
      · rw [if_pos h3]
        exact Or.inl ⟨rfl, le_of_eq he⟩
      · rw [if_neg h3]
        exact Or.inr ⟨rfl, le_of_eq he.symm⟩

/-- No integer is nearer to `x` than `roundHalfEven x`. -/
theorem roundHalfEven_nearest (x : ℚ) (z : ℤ) :
    |x - (roundHalfEven x : ℚ)| ≤ |x - (z : ℚ)| := by
  have hf1 : (Int.floor x : ℚ) ≤ x := Int.floor_le x
  have hf2 : x < (Int.floor x : ℚ) + 1 := Int.lt_floor_add_one x
  have hz : (z : ℚ) ≤ (Int.floor x : ℚ) ∨ (Int.floor x : ℚ) + 1 ≤ (z : ℚ) := by
    rcases le_or_lt z (Int.floor x) with h | h
    · exact Or.inl (by exact_mod_cast h)
    · exact Or.inr (by exact_mod_cast h)
  rcases roundHalfEven_cases x with ⟨hr, hle⟩ | ⟨hr, hle⟩
  · rw [hr, abs_of_nonneg (by linarith)]
    rcases hz with h | h
    · rw [abs_of_nonneg (by linarith)]
      linarith
    · rw [abs_of_nonpos (by linarith)]
      linarith
  · rw [hr, Int.cast_add, Int.cast_one, abs_of_nonpos (by linarith)]
    rcases hz with h | h
    · rw [abs_of_nonneg (by linarith)]
      linarith
    · rw [abs_of_nonpos (by linarith)]
      linarith

theorem roundHalfEven_eq (x : ℚ) (n : ℤ) (h : |x - (n : ℚ)| < 1 / 2) : roundHalfEven x = n := by
  have h1 := roundHalfEven_nearest x n
  have h2 : |((roundHalfEven x : ℤ) : ℚ) - (n : ℚ)| < 1 := by
    have e : ((roundHalfEven x : ℤ) : ℚ) - (n : ℚ)
        = (x - (n : ℚ)) - (x - (roundHalfEven x : ℚ)) := by ring
    rw [e]
    calc |(x - (n : ℚ)) - (x - (roundHalfEven x : ℚ))|
        ≤ |x - (n : ℚ)| + |x - (roundHalfEven x : ℚ)| := abs_sub _ _
      _ < 1 := by linarith
  have h3 : |roundHalfEven x - n| < 1 := by
    have : ((|roundHalfEven x - n| : ℤ) : ℚ) < 1 := by
      rw [Int.cast_abs, Int.cast_sub]
      exact h2
    exact_mod_cast this
  have h4 : roundHalfEven x - n = 0 := Int.abs_lt_one_iff.1 h3
  omega

theorem fl64_zero : fl64 0 = 0 := by
  simp [fl64]

theorem abs_mul_sub_eq (a q u : ℚ) (hu : 0 < u) : |a * u - q| = |q / u - a| * u := by
  have e : a * u - q = -((q / u - a) * u) := by
    field_simp
    ring
  rw [e, abs_neg, abs_mul, abs_of_pos hu]

/-- No double is nearer to `q` than `fl64 q`. -/
theorem fl64_nearest (q d : ℚ) (hd : IsDouble d) : |fl64 q - q| ≤ |d - q| := by
  by_cases hq : q = 0
  · subst hq
    rw [fl64_zero]
    simp
  obtain ⟨m, j, hm, hj, rfl⟩ := hd
  have habs : 0 < |q| := abs_pos.2 hq
  have hlog : (2 : ℚ) ^ Int.log 2 |q| ≤ |q| := by
    have := @Int.zpow_log_le_self ℚ _ _ 2 |q| (by norm_num) habs
    simpa using this
  have hfl : fl64 q
      = (roundHalfEven (q / (2 : ℚ) ^ (max (Int.log 2 |q| - 52) (-1074))) : ℚ)
          * (2 : ℚ) ^ (max (Int.log 2 |q| - 52) (-1074)) := by
    simp [fl64, hq]
  generalize Int.log 2 |q| = e at hlog hfl
  generalize hk : max (e - 52) (-1074) = k at hfl
  have hu : (0 : ℚ) < (2 : ℚ) ^ k := zpow_pos (by norm_num) k
  have h2 : (2 : ℚ) ≠ 0 := by norm_num
  rw [hfl, abs_mul_sub_eq _ _ _ hu]
  rcases le_or_lt k j with hkj | hjk
  · -- the double is a multiple of the quantum
    have hz : (m : ℚ) * (2 : ℚ) ^ j = ((m * 2 ^ (j - k).toNat : ℤ) : ℚ) * (2 : ℚ) ^ k := by
      have e1 : (2 : ℚ) ^ j = (2 : ℚ) ^ ((j - k).toNat : ℤ) * (2 : ℚ) ^ k := by
        rw [← zpow_add₀ h2]
        congr 1
        rw [Int.toNat_of_nonneg (by omega)]
        ring
      rw [e1, zpow_natCast]
      push_cast
      ring
    rw [hz, abs_mul_sub_eq _ _ _ hu]
    exact mul_le_mul_of_nonneg_right (roundHalfEven_nearest _ _) (le_of_lt hu)
  · -- the double is below the binade of `q`
    have hke : k = e - 52 := by omega
    have hdlt : |(m : ℚ) * (2 : ℚ) ^ j| < (2 : ℚ) ^ e := by
      have hm2 : |(m : ℚ)| < (2 : ℚ) ^ (53 : ℤ) := by
        have : ((|m| : ℤ) : ℚ) < ((2 ^ 53 : ℤ) : ℚ) := by exact_mod_cast hm
        rw [Int.cast_abs] at this
        have e53 : ((2 ^ 53 : ℤ) : ℚ) = (2 : ℚ) ^ (53 : ℤ) := by norm_num
        rw [e53] at this
        exact this
      have hpj : (0 : ℚ) < (2 : ℚ) ^ j := zpow_pos (by norm_num) j
      rw [abs_mul, abs_of_pos hpj]
      calc |(m : ℚ)| * (2 : ℚ) ^ j < (2 : ℚ) ^ (53 : ℤ) * (2 : ℚ) ^ j :=
            mul_lt_mul_of_pos_right hm2 hpj
        _ = (2 : ℚ) ^ (53 + j) := (zpow_add₀ h2 53 j).symm
        _ ≤ (2 : ℚ) ^ e := zpow_le_zpow_right₀ (by norm_num) (by omega)
    have hpe : (2 : ℚ) ^ e = ((2 ^ 52 : ℤ) : ℚ) * (2 : ℚ) ^ k := by
      have e52 : ((2 ^ 52 : ℤ) : ℚ) = (2 : ℚ) ^ (52 : ℤ) := by norm_num
      rw [e52, ← zpow_add₀ h2, hke]
      congr 1
      ring
    have key : |q| - (2 : ℚ) ^ e ≤ |(m : ℚ) * (2 : ℚ) ^ j - q| := by
      have h1 : |q| - |(m : ℚ) * (2 : ℚ) ^ j| ≤ |q - (m : ℚ) * (2 : ℚ) ^ j| :=
        abs_sub_abs_le_abs_sub _ _
      rw [abs_sub_comm] at h1
      linarith
    rcases lt_or_gt_of_ne hq with hneg | hpos
    · have hn := roundHalfEven_nearest (q / (2 : ℚ) ^ k) (-(2 ^ 52))
      have hn2 := mul_le_mul_of_nonneg_right hn (le_of_lt hu)
      have hr := abs_mul_sub_eq (((-(2 ^ 52) : ℤ)) : ℚ) q _ hu
      have e3 : ((-(2 ^ 52) : ℤ) : ℚ) * (2 : ℚ) ^ k - q = -(2 : ℚ) ^ e - q := by
        rw [hpe]
        push_cast
        ring
      have hq2 : |q| = -q := abs_of_neg hneg
      have e4 : |-(2 : ℚ) ^ e - q| = |q| - (2 : ℚ) ^ e := by
        rw [hq2] at hlog ⊢
        rw [abs_of_nonneg (by linarith)]
        ring
      rw [e3, e4] at hr
      linarith
    · have hn := roundHalfEven_nearest (q / (2 : ℚ) ^ k) (2 ^ 52)
      have hn2 := mul_le_mul_of_nonneg_right hn (le_of_lt hu)
      have hr := abs_mul_sub_eq (((2 ^ 52 : ℤ)) : ℚ) q _ hu
      have e3 : ((2 ^ 52 : ℤ) : ℚ) * (2 : ℚ) ^ k - q = (2 : ℚ) ^ e - q := by
        rw [hpe]
      have hq2 : |q| = q := abs_of_pos hpos
      have e4 : |(2 : ℚ) ^ e - q| = |q| - (2 : ℚ) ^ e := by
        rw [hq2] at hlog ⊢
        rw [abs_of_nonpos (by linarith)]
        ring
      rw [e3, e4] at hr
      linarith

/-- A double below `q` is below the rounded `q`. -/
theorem le_fl64 (a q : ℚ) (ha : IsDouble a) (h : a ≤ q) : a ≤ fl64 q := by
  by_contra hc
  have hlt : fl64 q < a := not_le.1 hc
  have hn := fl64_nearest q a ha
  rw [abs_of_nonpos (by linarith), abs_of_nonpos (by linarith)] at hn
  linarith

/-- A double above `q` is above the rounded `q`. -/
theorem fl64_le (a q : ℚ) (ha : IsDouble a) (h : q ≤ a) : fl64 q ≤ a := by
  by_contra hc
  have hlt : a < fl64 q := not_le.1 hc
  have hn := fl64_nearest q a ha
  rw [abs_of_nonneg (by linarith), abs_of_nonneg (by linarith)] at hn
  linarith

/-- Rounding leaves a double unchanged. -/
theorem fl64_of_isDouble (a : ℚ) (ha : IsDouble a) : fl64 a = a :=
  le_antisymm (fl64_le a a ha (le_refl a)) (le_fl64 a a ha (le_refl a))

/-- The value of `fl64 q` from the binary exponent `e` of `q` and the integer `n`
nearest to `q / 2 ^ (e - 52)`. -/
theorem fl64_eq (q : ℚ) (e n : ℤ) (hlo : (2 : ℚ) ^ e ≤ |q|) (hhi : |q| < (2 : ℚ) ^ (e + 1))
    (hk : -1074 ≤ e - 52) (hn : |q / (2 : ℚ) ^ (e - 52) - (n : ℚ)| < 1 / 2) :
    fl64 q = (n : ℚ) * (2 : ℚ) ^ (e - 52) := by
  have hpos : (0 : ℚ) < (2 : ℚ) ^ e := zpow_pos (by norm_num) e
  have habs : 0 < |q| := lt_of_lt_of_le hpos hlo
  have hq : q ≠ 0 := abs_pos.1 habs
  have h1 : e ≤ Int.log 2 |q| := by
    have := (@Int.zpow_le_iff_le_log ℚ _ _ 2 (by norm_num) e |q| habs).1
    exact this (by simpa using hlo)
  have h2 : Int.log 2 |q| < e + 1 := by
    have := (@Int.lt_zpow_iff_log_lt ℚ _ _ 2 (by norm_num) (e + 1) |q| habs).1
    exact this (by simpa using hhi)
  have he : Int.log 2 |q| = e := by omega
  have hmax : max (e - 52) (-1074) = e - 52 := max_eq_left hk
  simp only [fl64, hq, if_false, he, hmax]
  rw [roundHalfEven_eq _ n hn]

/-! ### Doubles used as bounds -/

theorem isDouble_mul_zpow (m k : ℤ) (hm : |m| < 2 ^ 53) (hk : -1074 ≤ k) :
    IsDouble ((m : ℚ) * (2 : ℚ) ^ k) :=
  ⟨m, k, hm, hk, rfl⟩

/-- An integer below `2 ^ 53` in absolute value is a double. -/
theorem isDouble_int (m : ℤ) (hm : |m| < 2 ^ 53) : IsDouble (m : ℚ) :=
  ⟨m, 0, hm, by norm_num, by simp⟩

/-- Rounding keeps a number between two doubles that enclose it. -/
theorem fl64_mem (lo hi q : ℚ) (hlo : IsDouble lo) (hhi : IsDouble hi)
    (h1 : lo ≤ q) (h2 : q ≤ hi) : lo ≤ fl64 q ∧ fl64 q ≤ hi :=
  ⟨le_fl64 lo q hlo h1, fl64_le hi q hhi h2⟩

theorem fl64_three_tenths : (19 / 64 : ℚ) ≤ fl64 0.3 ∧ fl64 0.3 ≤ 5 / 16 :=
  fl64_mem _ _ _ ⟨19, -6, by norm_num, by norm_num, by norm_num⟩
    ⟨5, -4, by norm_num, by norm_num, by norm_num⟩ (by norm_num) (by norm_num)

theorem fl64_two_tenths : (3 / 16 : ℚ) ≤ fl64 0.2 ∧ fl64 0.2 ≤ 13 / 64 :=
  fl64_mem _ _ _ ⟨3, -4, by norm_num, by norm_num, by norm_num⟩
    ⟨13, -6, by norm_num, by norm_num, by norm_num⟩ (by norm_num) (by norm_num)

theorem fl64_one_tenth : (3 / 32 : ℚ) ≤ fl64 0.1 ∧ fl64 0.1 ≤ 13 / 128 :=
  fl64_mem _ _ _ ⟨3, -5, by norm_num, by norm_num, by norm_num⟩
    ⟨13, -7, by norm_num, by norm_num, by norm_num⟩ (by norm_num) (by norm_num)

/-! ### Bounds of the river path -/

/-- With a sine in `[-1, 1]`, the z of every path point is the floor of a number
between `3 size / 32` and `33 size / 64`. -/
theorem riverPoint_z_bounds (M : JSMath) (noise : NoiseGenerator) (size i : Nat)
    (hsize : size < 2 ^ 40) (hsin : ∀ a, -1 ≤ M.sin a ∧ M.sin a ≤ 1) :
    ∃ v : ℚ, (riverPoint M noise size i).z = Int.floor v
      ∧ 3 * (size : ℚ) / 32 ≤ v ∧ v ≤ 33 * (size : ℚ) / 64 := by
  refine ⟨_, rfl, ?_⟩
  have hn0 : (0 : ℚ) ≤ (size : ℚ) := Nat.cast_nonneg size
  have hsz : ((size : ℤ)) < 2 ^ 40 := by exact_mod_cast hsize
  have hsz0 : (0 : ℤ) ≤ (size : ℤ) := Int.natCast_nonneg size
  have dbl : ∀ (c k : ℤ), |c| ≤ 64 → -1074 ≤ k →
      IsDouble (((c * (size : ℤ) : ℤ) : ℚ) * (2 : ℚ) ^ k) := by
    intro c k hc hk
    refine isDouble_mul_zpow _ k ?_ hk
    rw [abs_mul, abs_of_nonneg hsz0]
    have h1 : |c| * (size : ℤ) ≤ 64 * (size : ℤ) := mul_le_mul_of_nonneg_right hc hsz0
    have h2 : (64 : ℤ) * (size : ℤ) < 2 ^ 53 := by omega
    omega
  obtain ⟨hs1, hs2⟩ := hsin (fl64 (fl64 (fl64 ((i : ℚ) / 20) * MathPI) * 2))
  generalize M.sin (fl64 (fl64 (fl64 ((i : ℚ) / 20) * MathPI) * 2)) = s at hs1 hs2
  obtain ⟨c3lo, c3hi⟩ := fl64_three_tenths
  obtain ⟨c2lo, c2hi⟩ := fl64_two_tenths
  generalize fl64 0.3 = c3 at c3lo c3hi
  generalize fl64 0.2 = c2 at c2lo c2hi
  -- size * 0.3
  have hA := fl64_mem (((19 * (size : ℤ) : ℤ) : ℚ) * (2 : ℚ) ^ (-6 : ℤ))
    (((5 * (size : ℤ) : ℤ) : ℚ) * (2 : ℚ) ^ (-4 : ℤ)) ((size : ℚ) * c3)
    (dbl 19 (-6) (by norm_num) (by norm_num)) (dbl 5 (-4) (by norm_num) (by norm_num))
    (by push_cast; norm_num; nlinarith) (by push_cast; norm_num; nlinarith)
  -- sin * size
  have hB1 := fl64_mem (((-1 * (size : ℤ) : ℤ) : ℚ) * (2 : ℚ) ^ (0 : ℤ))
    (((1 * (size : ℤ) : ℤ) : ℚ) * (2 : ℚ) ^ (0 : ℤ)) (s * (size : ℚ))
    (dbl (-1) 0 (by norm_num) (by norm_num)) (dbl 1 0 (by norm_num) (by norm_num))
    (by push_cast; norm_num; nlinarith) (by push_cast; norm_num; nlinarith)
  generalize fl64 ((size : ℚ) * c3) = A at hA
  generalize fl64 (s * (size : ℚ)) = B1 at hB1
  push_cast at hA hB1
  norm_num at hA hB1
  -- (sin * size) * 0.2
  have hB := fl64_mem (((-13 * (size : ℤ) : ℤ) : ℚ) * (2 : ℚ) ^ (-6 : ℤ))
    (((13 * (size : ℤ) : ℤ) : ℚ) * (2 : ℚ) ^ (-6 : ℤ)) (B1 * c2)
    (dbl (-13) (-6) (by norm_num) (by norm_num)) (dbl 13 (-6) (by norm_num) (by norm_num))
    (by push_cast; norm_num; nlinarith) (by push_cast; norm_num; nlinarith)
  generalize fl64 (B1 * c2) = B at hB
  push_cast at hB
  norm_num at hB
  -- the sum
  have hS := fl64_mem (((6 * (size : ℤ) : ℤ) : ℚ) * (2 : ℚ) ^ (-6 : ℤ))
    (((33 * (size : ℤ) : ℤ) : ℚ) * (2 : ℚ) ^ (-6 : ℤ)) (A + B)
    (dbl 6 (-6) (by norm_num) (by norm_num)) (dbl 33 (-6) (by norm_num) (by norm_num))
    (by push_cast; norm_num; linarith) (by push_cast; norm_num; linarith)
  push_cast at hS
  norm_num at hS
  constructor <;> linarith

/-- Path point 0 at `size = 8` with noise 0 and `Math.sin(0) = 0` is `(0, 2)`. -/
theorem riverPoint_eight_zero : riverPoint exampleMath (constNoise 0) 8 0 = { x := 0, z := 2 } := by
  obtain ⟨c3lo, c3hi⟩ := fl64_three_tenths
  have hA := fl64_mem (19 / 8) (5 / 2) (8 * fl64 0.3)
    ⟨19, -3, by norm_num, by norm_num, by norm_num⟩ ⟨5, -1, by norm_num, by norm_num, by norm_num⟩
    (by linarith) (by linarith)
  have hS := fl64_mem (19 / 8) (5 / 2) (fl64 (8 * fl64 0.3))
    ⟨19, -3, by norm_num, by norm_num, by norm_num⟩ ⟨5, -1, by norm_num, by norm_num, by norm_num⟩
    hA.1 hA.2
  have hz : Int.floor (fl64 (fl64 (8 * fl64 0.3))) = 2 := by
    rw [Int.floor_eq_iff]
    constructor
    · push_cast; linarith [hS.1]
    · push_cast; linarith [hS.2]
  simp only [riverPoint, exampleMath, constNoise, Nat.cast_zero, zero_div, fl64_zero, zero_mul,
    add_zero, Int.floor_zero, Nat.cast_ofNat, hz]

/-- Path point 10 at `size = 8` with noise in `[-1, 1]` has x equal to 3 or 4. -/
theorem riverPoint_eight_ten_x (M : JSMath) (noise : NoiseGenerator)
    (hn : ∀ a b c, -1 ≤ noise.noise a b c ∧ noise.noise a b c ≤ 1) :
    3 ≤ (riverPoint M noise 8 10).x ∧ (riverPoint M noise 8 10).x ≤ 4 := by
  have ht : fl64 (((10 : ℕ) : ℚ) / 20) = 1 / 2 := by
    have e : ((10 : ℕ) : ℚ) / 20 = 1 / 2 := by norm_num
    rw [e]
    exact fl64_of_isDouble _ ⟨1, -1, by norm_num, by norm_num, by norm_num⟩
  have hb : fl64 ((1 / 2 : ℚ) * ((8 : ℕ) : ℚ)) = 4 := by
    have e : (1 / 2 : ℚ) * ((8 : ℕ) : ℚ) = 4 := by norm_num
    rw [e]
    exact fl64_of_isDouble _ ⟨4, 0, by norm_num, by norm_num, by norm_num⟩
  obtain ⟨c1lo, c1hi⟩ := fl64_one_tenth
  simp only [riverPoint, ht, hb]
  obtain ⟨hn1, hn2⟩ := hn (fl64 (1 / 2 * 10)) 0 200
  generalize noise.noise (fl64 (1 / 2 * 10)) 0 200 = n at hn1 hn2
  generalize fl64 0.1 = c1 at c1lo c1hi
  have hN1 := fl64_mem (-8) 8 (n * ((8 : ℕ) : ℚ))
    ⟨-8, 0, by norm_num, by norm_num, by norm_num⟩ ⟨8, 0, by norm_num, by norm_num, by norm_num⟩
    (by push_cast; linarith) (by push_cast; linarith)
  generalize fl64 (n * ((8 : ℕ) : ℚ)) = N1 at hN1
  have hN := fl64_mem (-13 / 16) (13 / 16) (N1 * c1)
    ⟨-13, -4, by norm_num, by norm_num, by norm_num⟩
    ⟨13, -4, by norm_num, by norm_num, by norm_num⟩
    (by nlinarith [hN1.1, hN1.2]) (by nlinarith [hN1.1, hN1.2])
  generalize fl64 (N1 * c1) = N at hN
  have hS := fl64_mem (51 / 16) (77 / 16) (4 + N)
    ⟨51, -4, by norm_num, by norm_num, by norm_num⟩
    ⟨77, -4, by norm_num, by norm_num, by norm_num⟩
    (by linarith [hN.1]) (by linarith [hN.2])
  constructor
  · rw [Int.le_floor]
    push_cast
    linarith [hS.1]
  · have : Int.floor (fl64 (4 + N)) < 5 := by
      rw [Int.floor_lt]
      push_cast
      linarith [hS.2]
    omega

/-- At `size = 90` with noise 0 the program's path point 14 has x equal to 62:
`14 / 20` is rounded below `0.7` and its product with 90 below 63. -/
theorem riverPoint_ninety_fourteen_x (M : JSMath) :
    (riverPoint M (constNoise 0) 90 14).x = 62 := by
  have ht : fl64 (((14 : ℕ) : ℚ) / 20) = (6305039478318694 : ℤ) * (2 : ℚ) ^ ((-1 : ℤ) - 52) := by
    apply fl64_eq
    · norm_num [abs_of_pos]
    · norm_num [abs_of_pos]
    · norm_num
    · norm_num [abs_lt]
  have hb : fl64 ((6305039478318694 : ℤ) * (2 : ℚ) ^ ((-1 : ℤ) - 52) * ((90 : ℕ) : ℚ))
      = (8866461766385663 : ℤ) * (2 : ℚ) ^ ((5 : ℤ) - 52) := by
    apply fl64_eq
    · norm_num [abs_of_pos]
    · norm_num [abs_of_pos]
    · norm_num
    · norm_num [abs_lt]
  have hs : fl64 ((8866461766385663 : ℤ) * (2 : ℚ) ^ ((5 : ℤ) - 52))
      = (8866461766385663 : ℤ) * (2 : ℚ) ^ ((5 : ℤ) - 52) :=
    fl64_of_isDouble _ ⟨8866461766385663, 5 - 52, by norm_num, by norm_num, rfl⟩
  simp only [riverPoint, constNoise, ht, hb, zero_mul, fl64_zero, add_zero, hs]
  rw [Int.floor_eq_iff]
  constructor
  · norm_num
  · norm_num

/-! ### The square-root test -/

/-- The test `sqrtLe a b` is the comparison `√a ≤ b` of real numbers, for a
non-negative `a`. -/
theorem sqrtLe_iff_sqrt (a b : ℚ) :
    sqrtLe a b = true ↔ 0 ≤ a ∧ Real.sqrt (a : ℝ) ≤ (b : ℝ) := by
  simp only [sqrtLe, decide_eq_true_eq]
  apply and_congr Iff.rfl
  rw [Real.sqrt_le_iff]
  constructor
  · rintro ⟨hb, hab⟩
    refine ⟨by exact_mod_cast hb, ?_⟩
    have : (a : ℝ) ≤ (b : ℝ) * b := by exact_mod_cast hab
    nlinarith
  · rintro ⟨hb, hab⟩
    refine ⟨by exact_mod_cast hb, ?_⟩
    have : (a : ℝ) ≤ (b : ℝ) * b := by nlinarith
    exact_mod_cast this

/-! ### Grids and loop nests -/

theorem at2_of_isGrid {α : Type} {size : Nat} {g : List (List α)} (hg : IsGrid size g)
    {x z : Nat} (hx : x < size) (hz : z < size) : ∃ v, at2 g x z = some v := by
  obtain ⟨hlen, hrows⟩ := hg
  have hx2 : x < g.length := by omega
  have hrow : (g[x]).length = size := hrows _ (List.getElem_mem _)
  have hz2 : z < (g[x]).length := by omega
  exact ⟨(g[x])[z], by simp [at2, List.getElem?_eq_getElem hx2, List.getElem?_eq_getElem hz2]⟩

theorem at2_lt {α : Type} {size : Nat} {g : List (List α)} (hg : IsGrid size g)
    {x z : Nat} {v : α} (h : at2 g x z = some v) : x < size ∧ z < size := by
  obtain ⟨hlen, hrows⟩ := hg
  unfold at2 at h
  cases hgx : g[x]? with
  | none => simp [hgx] at h
  | some row =>
    simp only [hgx, Option.some_bind] at h
    have hx2 : x < g.length := by
      by_contra hc
      rw [List.getElem?_eq_none (by omega)] at hgx
      cases hgx
    have hmem : row ∈ g := List.getElem?_mem hgx
    have hrl := hrows row hmem
    have hz2 : z < row.length := by
      by_contra hc
      rw [List.getElem?_eq_none (by omega)] at h
      cases h
    omega

theorem at2_set2 {α : Type} (g : List (List α)) (x z : Nat) (v : α) (x' z' : Nat) :
    at2 (set2 g x z v) x' z'
      = if x' = x ∧ z' = z then (at2 g x z).map (fun _ => v) else at2 g x' z' := by
  unfold set2 at2
  cases hgx : g[x]? with
  | none =>
    by_cases hc : x' = x ∧ z' = z
    · obtain ⟨rfl, rfl⟩ := hc
      simp [hgx]
    · simp [hc]
  | some row =>
    have hx2 : x < g.length := by
      by_contra hc
      rw [List.getElem?_eq_none (by omega)] at hgx
      cases hgx
    by_cases hxx : x' = x
    · subst hxx
      simp only [List.getElem?_set_self hx2, Option.some_bind, true_and, hgx]
      by_cases hzz : z' = z
      · subst hzz
        by_cases hz2 : z' < row.length
        · simp [List.getElem?_set_self hz2, List.getElem?_eq_getElem hz2]
        · have hz3 : row.length ≤ z' := Nat.le_of_not_lt hz2
          rw [List.getElem?_eq_none hz3, List.getElem?_eq_none (by simpa using hz3)]
          simp
      · simp [hzz, List.getElem?_set_ne (Ne.symm hzz)]
    · simp [hxx, List.getElem?_set_ne (Ne.symm hxx)]

theorem isGrid_set2 {α : Type} {size : Nat} {g : List (List α)} (hg : IsGrid size g)
    (x z : Nat) (v : α) : IsGrid size (set2 g x z v) := by
  obtain ⟨hlen, hrows⟩ := hg
  unfold set2
  cases hgx : g[x]? with
  | none => exact ⟨hlen, hrows⟩
  | some row =>
    refine ⟨by simpa using hlen, ?_⟩
    intro r hr
    rcases List.mem_or_eq_of_mem_set hr with h | h
    · exact hrows r h
    · subst h
      simpa using hrows row (List.getElem?_mem hgx)

theorem foldlM_cells {σ α β : Type} (f : σ → α → β → Option σ) (xs : List α) (zs : List β)
    (s : σ) :
    xs.foldlM (fun s x => zs.foldlM (fun s z => f s x z) s) s
      = (cells xs zs).foldlM (fun s p => f s p.1 p.2) s := by
  induction xs generalizing s with
  | nil => rfl
  | cons x xs ih =>
    have hmap : ∀ (l : List β) (s : σ),
        (l.map fun z => (x, z)).foldlM (fun s (p : α × β) => f s p.1 p.2) s
          = l.foldlM (fun s z => f s x z) s := by
      intro l
      induction l with
      | nil => intro s; rfl
      | cons z l ihl =>
        intro s
        simp only [List.map_cons, List.foldlM_cons]
        cases f s x z with
        | none => rfl
        | some s1 => simpa using ihl s1
    simp only [cells, List.flatMap_cons, List.foldlM_cons, List.foldlM_append, hmap]
    cases zs.foldlM (fun s z => f s x z) s with
    | none => rfl
    | some s1 => simpa [cells] using ih s1

theorem foldl_cells {σ α β : Type} (f : σ → α → β → σ) (xs : List α) (zs : List β) (s : σ) :
    xs.foldl (fun s x => zs.foldl (fun s z => f s x z) s) s
      = (cells xs zs).foldl (fun s p => f s p.1 p.2) s := by
  induction xs generalizing s with
  | nil => rfl
  | cons x xs ih =>
    simp only [cells, List.flatMap_cons, List.foldl_cons, List.foldl_append, List.foldl_map]
    simpa [cells] using ih _

theorem mem_cells {α β : Type} {xs : List α} {zs : List β} {p : α × β} :
    p ∈ cells xs zs ↔ p.1 ∈ xs ∧ p.2 ∈ zs := by
  obtain ⟨a, b⟩ := p
  simp only [cells, List.mem_flatMap, List.mem_map, Prod.mk.injEq]
  constructor
  · rintro ⟨x, hx, z, hz, rfl, rfl⟩
    exact ⟨hx, hz⟩
  · rintro ⟨hx, hz⟩
    exact ⟨a, hx, b, hz, rfl, rfl⟩

theorem nodup_cells {α β : Type} {xs : List α} {zs : List β} (hx : xs.Nodup) (hz : zs.Nodup) :
    (cells xs zs).Nodup := by
  induction xs with
  | nil => simp [cells]
  | cons x xs ih =>
    rw [List.nodup_cons] at hx
    simp only [cells, List.flatMap_cons]
    rw [List.nodup_append]
    refine ⟨?_, ih hx.2, ?_⟩
    · exact hz.map (fun a b h => by simpa using h)
    · intro p hp1 hp2
      have h2 : p.1 ∈ xs ∧ p.2 ∈ zs := mem_cells.1 hp2
      simp only [List.mem_map] at hp1
      obtain ⟨z, _, rfl⟩ := hp1
      exact hx.1 h2.1

/-! ### applyRiverToTerrain -/

theorem carve_cells {size : Nat} (riverMap : List (List Bool)) (hR : IsGrid size riverMap)
    (ps : List (Nat × Nat)) (hnd : ps.Nodup) (hin : ∀ p ∈ ps, p.1 < size ∧ p.2 < size)
    (heightMap : List (List ℤ)) (hH : IsGrid size heightMap) :
    ∃ hm, ps.foldlM (fun hm p => carveCell riverMap hm p.1 p.2) heightMap = some hm
      ∧ IsGrid size hm
      ∧ ∀ x z, at2 hm x z
          = if (x, z) ∈ ps ∧ at2 riverMap x z = some true
            then (at2 heightMap x z).map (fun h => max 1 (h - 3))
            else at2 heightMap x z := by
  induction ps generalizing heightMap with
  | nil => exact ⟨heightMap, rfl, hH, by simp⟩
  | cons p ps ih =>
    obtain ⟨x0, z0⟩ := p
    rw [List.nodup_cons] at hnd
    have hp := hin (x0, z0) (List.mem_cons_self _ _)
    have hin2 : ∀ p ∈ ps, p.1 < size ∧ p.2 < size := fun p hp => hin p (List.mem_cons_of_mem _ hp)
    obtain ⟨r, hr⟩ := at2_of_isGrid hR hp.1 hp.2
    obtain ⟨h, hh⟩ := at2_of_isGrid hH hp.1 hp.2
    cases r with
    | false =>
      obtain ⟨hm, hfold, hgrid, hat⟩ := ih hnd.2 hin2 heightMap hH
      refine ⟨hm, ?_, hgrid, ?_⟩
      · simp only [List.foldlM_cons, carveCell, hr, Option.bind_eq_bind, Option.some_bind]
        simpa using hfold
      · intro x z
        rw [hat x z]
        by_cases hxz : (x, z) = (x0, z0)
        · obtain ⟨rfl, rfl⟩ := Prod.mk.inj hxz
          simp [hr]
        · simp [List.mem_cons, hxz]
    | true =>
      obtain ⟨hm, hfold, hgrid, hat⟩ :=
        ih hnd.2 hin2 (set2 heightMap x0 z0 (max 1 (h - 3))) (isGrid_set2 hH _ _ _)
      refine ⟨hm, ?_, hgrid, ?_⟩
      · simp only [List.foldlM_cons, carveCell, hr, hh, Option.bind_eq_bind, Option.some_bind]
        simpa using hfold
      · intro x z
        rw [hat x z, at2_set2]
        by_cases hxz : (x, z) = (x0, z0)
        · obtain ⟨rfl, rfl⟩ := Prod.mk.inj hxz
          simp [hr, hh, hnd.1]
        · have hxz2 : ¬ (x = x0 ∧ z = z0) := fun hc => hxz (by rw [hc.1, hc.2])
          simp [List.mem_cons, hxz, hxz2]

/-- The run of `applyRiverToTerrain` on `size × size` grids, column by column. -/
theorem applyRiverToTerrain_cells (size : Nat) (heightMap : List (List ℤ))
    (riverMap : List (List Bool)) (hH : IsGrid size heightMap) (hR : IsGrid size riverMap) :
    ∃ carved, applyRiverToTerrain heightMap riverMap size = some carved
      ∧ IsGrid size carved
      ∧ ∀ x z, x < size → z < size →
          at2 carved x z
            = if at2 riverMap x z = some true
              then (at2 heightMap x z).map (fun h => max 1 (h - 3))
              else at2 heightMap x z := by
  have hnd : (cells (List.range size) (List.range size)).Nodup :=
    nodup_cells (List.nodup_range size) (List.nodup_range size)
  have hin : ∀ p ∈ cells (List.range size) (List.range size), p.1 < size ∧ p.2 < size := by
    intro p hp
    simpa [mem_cells] using hp
  obtain ⟨hm, hfold, hgrid, hat⟩ := carve_cells riverMap hR _ hnd hin heightMap hH
  refine ⟨hm, ?_, hgrid, ?_⟩
  · unfold applyRiverToTerrain
    rw [foldlM_cells]
    exact hfold
  · intro x z hx hz
    have hmem : (x, z) ∈ cells (List.range size) (List.range size) := by
      simp [mem_cells, hx, hz]
    rw [hat x z]
    simp only [hmem, true_and]

/-- C2: on a `size × size` height grid and river mask, `applyRiverToTerrain`
runs to the end and replaces the height `h` of every column whose mask entry
is true by `max(1, h - 3)`, leaving every other column unchanged. -/
theorem applyRiverToTerrain_spec (size : Nat) (heightMap : List (List ℤ))
    (riverMap : List (List Bool)) (hH : IsGrid size heightMap) (hR : IsGrid size riverMap) :
    ∃ carved, applyRiverToTerrain heightMap riverMap size = some carved
      ∧ IsGrid size carved
      ∧ ∀ x z, x < size → z < size →
          ∃ h r, at2 heightMap x z = some h ∧ at2 riverMap x z = some r
            ∧ at2 carved x z = some (if r = true then max 1 (h - 3) else h) := by
  obtain ⟨carved, hrun, hgrid, hat⟩ := applyRiverToTerrain_cells size heightMap riverMap hH hR
  refine ⟨carved, hrun, hgrid, ?_⟩
  intro x z hx hz
  obtain ⟨h, hh⟩ := at2_of_isGrid hH hx hz
  obtain ⟨r, hr⟩ := at2_of_isGrid hR hx hz
  refine ⟨h, r, hh, hr, ?_⟩
  rw [hat x z hx hz, hh, hr]
  cases r <;> simp

theorem applyRiverToTerrain_spec_witness :
    ∃ carved, applyRiverToTerrain [[5, 2], [9, 4]] [[true, true], [false, false]] 2 = some carved
      ∧ IsGrid 2 carved
      ∧ ∀ x z, x < 2 → z < 2 →
          ∃ h r, at2 [[5, 2], [9, 4]] x z = some h
            ∧ at2 [[true, true], [false, false]] x z = some r
            ∧ at2 carved x z = some (if r = true then max 1 (h - 3) else h) :=
  applyRiverToTerrain_spec 2 [[5, 2], [9, 4]] [[true, true], [false, false]]
    (by decide) (by decide)

/-! ### generateHeightMap -/

theorem at2_map_range {α : Type} (size : Nat) (f : Nat → Nat → α) {x z : Nat}
    (hx : x < size) (hz : z < size) :
    at2 ((List.range size).map fun x => (List.range size).map fun z => f x z) x z
      = some (f x z) := by
  simp [at2, List.getElem?_map, List.getElem?_range hx, List.getElem?_range hz]

theorem isGrid_map_range {α : Type} (size : Nat) (f : Nat → Nat → α) :
    IsGrid size ((List.range size).map fun x => (List.range size).map fun z => f x z) := by
  refine ⟨by simp, ?_⟩
  intro row hrow
  simp only [List.mem_map] at hrow
  obtain ⟨x, _, rfl⟩ := hrow
  simp

theorem columnHeight_bounds (M : JSMath) (noise : NoiseGenerator)
    (maxHeight noiseScale mountainHeight : ℚ)
    (hpow : ∀ v : ℚ, 0 ≤ v → v ≤ 1 → 0 ≤ M.pow v 1.5 ∧ M.pow v 1.5 ≤ 1) (x z : Nat) :
    1 ≤ columnHeight M noise maxHeight noiseScale mountainHeight x z
      ∧ columnHeight M noise maxHeight noiseScale mountainHeight x z
          ≤ max 1 (Int.floor (maxHeight * mountainHeight)) := by
  unfold columnHeight
  simp only
  generalize (noise.octaveNoise (x * noiseScale) (z * noiseScale) 0 4 0.5 2.0
    + noise.octaveNoise (x * noiseScale * 0.3) (z * noiseScale * 0.3) 100 6 0.6 2.0
      * mountainHeight * 0.5 + 1) / 2 = u
  have hv0 : (0 : ℚ) ≤ max 0 (min 1 u) := le_max_left _ _
  have hv1 : max 0 (min 1 u) ≤ (1 : ℚ) := max_le (by norm_num) (min_le_left _ _)
  obtain ⟨hp0, hp1⟩ := hpow _ hv0 hv1
  generalize M.pow (max 0 (min 1 u)) 1.5 = p at hp0 hp1
  refine ⟨le_max_left _ _, ?_⟩
  apply max_le (le_max_left _ _)
  rcases le_total 0 (maxHeight * mountainHeight) with hK | hK
  · apply le_max_of_le_right
    apply Int.floor_le_floor
    calc p * maxHeight * mountainHeight = p * (maxHeight * mountainHeight) := by ring
      _ ≤ 1 * (maxHeight * mountainHeight) := mul_le_mul_of_nonneg_right hp1 hK
      _ = maxHeight * mountainHeight := one_mul _
  · apply le_max_of_le_left
    have h0 : p * maxHeight * mountainHeight ≤ 0 := by
      have : p * maxHeight * mountainHeight = p * (maxHeight * mountainHeight) := by ring
      rw [this]
      exact mul_nonpos_of_nonneg_of_nonpos hp0 hK
    have : Int.floor (p * maxHeight * mountainHeight) ≤ 0 := by
      have := Int.floor_le_floor h0
      simpa using this
    omega

/-- C3: every column of the grid returned by `generateHeightMap` is an integer
`h` with `1 ≤ h ≤ max(1, floor(maxHeight * mountainHeight))`, and the bounds
still hold for every column once `applyRiverToTerrain` has carved the grid with
any river mask; `Math.pow(v, 1.5)` is taken to map `[0, 1]` into `[0, 1]`. -/
theorem generateHeightMap_bounds (M : JSMath) (noise : NoiseGenerator) (size : Nat)
    (maxHeight noiseScale mountainHeight : ℚ) (riverMap : List (List Bool))
    (hpow : ∀ v : ℚ, 0 ≤ v → v ≤ 1 → 0 ≤ M.pow v 1.5 ∧ M.pow v 1.5 ≤ 1)
    (hR : IsGrid size riverMap) :
    IsGrid size (generateHeightMap M noise size maxHeight noiseScale mountainHeight)
      ∧ (∀ x z, x < size → z < size →
          ∃ h, at2 (generateHeightMap M noise size maxHeight noiseScale mountainHeight) x z
              = some h
            ∧ 1 ≤ h ∧ h ≤ max 1 (Int.floor (maxHeight * mountainHeight)))
      ∧ ∃ carved,
          applyRiverToTerrain
              (generateHeightMap M noise size maxHeight noiseScale mountainHeight) riverMap size
            = some carved
          ∧ IsGrid size carved
          ∧ ∀ x z, x < size → z < size →
              ∃ h, at2 carved x z = some h
                ∧ 1 ≤ h ∧ h ≤ max 1 (Int.floor (maxHeight * mountainHeight)) := by
  have hG : IsGrid size (generateHeightMap M noise size maxHeight noiseScale mountainHeight) :=
    isGrid_map_range size _
  have hcol : ∀ x z, x < size → z < size →
      at2 (generateHeightMap M noise size maxHeight noiseScale mountainHeight) x z
        = some (columnHeight M noise maxHeight noiseScale mountainHeight x z) :=
    fun x z hx hz => at2_map_range size _ hx hz
  refine ⟨hG, ?_, ?_⟩
  · intro x z hx hz
    exact ⟨_, hcol x z hx hz, columnHeight_bounds M noise maxHeight noiseScale mountainHeight hpow x z⟩
  · obtain ⟨carved, hrun, hgrid, hat⟩ := applyRiverToTerrain_cells size _ riverMap hG hR
    refine ⟨carved, hrun, hgrid, ?_⟩
    intro x z hx hz
    have hb := columnHeight_bounds M noise maxHeight noiseScale mountainHeight hpow x z
    have hB : (1 : ℤ) ≤ max 1 (Int.floor (maxHeight * mountainHeight)) := le_max_left _ _
    rw [hat x z hx hz, hcol x z hx hz]
    by_cases hr : at2 riverMap x z = some true
    · rw [if_pos hr]
      refine ⟨_, rfl, le_max_left _ _, max_le hB ?_⟩
      omega
    · rw [if_neg hr]
      exact ⟨_, rfl, hb⟩

theorem generateHeightMap_bounds_witness :
    IsGrid 8 (generateHeightMap exampleMath (constNoise 0) 8 10 0.1 1)
      ∧ (∀ x z, x < 8 → z < 8 →
          ∃ h, at2 (generateHeightMap exampleMath (constNoise 0) 8 10 0.1 1) x z = some h
            ∧ 1 ≤ h ∧ h ≤ 10)
      ∧ ∃ carved,
          applyRiverToTerrain (generateHeightMap exampleMath (constNoise 0) 8 10 0.1 1)
              (List.replicate 8 (List.replicate 8 false)) 8
            = some carved
          ∧ IsGrid 8 carved
          ∧ ∀ x z, x < 8 → z < 8 → ∃ h, at2 carved x z = some h ∧ 1 ≤ h ∧ h ≤ 10 := by
  have h := generateHeightMap_bounds exampleMath (constNoise 0) 8 10 0.1 1
    (List.replicate 8 (List.replicate 8 false)) (fun v h0 h1 => ⟨h0, h1⟩) (by decide)
  have e : max 1 (Int.floor ((10 : ℚ) * 1)) = 10 := by norm_num
  rw [e] at h
  exact h

/-! ### generateRiver -/

theorem mem_offsets {r : Nat} {d : ℤ} : d ∈ offsets r ↔ -(r : ℤ) ≤ d ∧ d ≤ r := by
  simp only [offsets, List.mem_map, List.mem_range]
  constructor
  · rintro ⟨k, hk, hd⟩
    omega
  · rintro ⟨h1, h2⟩
    exact ⟨(d + r).toNat, by omega, by omega⟩

theorem sqrtLe_int (a : ℤ) (w : Nat) (ha : 0 ≤ a) :
    sqrtLe (a : ℚ) (w : ℚ) = true ↔ a ≤ (w : ℤ) * w := by
  have ha2 : (0 : ℚ) ≤ (a : ℚ) := by exact_mod_cast ha
  have hw : (0 : ℚ) ≤ (w : ℚ) := by positivity
  simp only [sqrtLe, decide_eq_true_eq, ha2, hw, true_and]
  constructor
  · intro h; exact_mod_cast h
  · intro h; exact_mod_cast h

theorem drawCell_isGrid {size : Nat} (riverWidth : Nat) (point : Point)
    {riverMap : List (List Bool)} (hg : IsGrid size riverMap) (dx dz : ℤ) :
    IsGrid size (drawCell size riverWidth point riverMap dx dz) := by
  unfold drawCell
  simp only
  split_ifs
  · exact isGrid_set2 hg _ _ _
  · exact hg
  · exact hg

theorem drawCell_true {size : Nat} (riverWidth : Nat) (point : Point)
    {riverMap : List (List Bool)} (hg : IsGrid size riverMap) (dx dz : ℤ) (x z : Nat) :
    at2 (drawCell size riverWidth point riverMap dx dz) x z = some true
      ↔ at2 riverMap x z = some true
        ∨ (x < size ∧ z < size ∧ (x : ℤ) = point.x + dx ∧ (z : ℤ) = point.z + dz
            ∧ dx * dx + dz * dz ≤ (riverWidth : ℤ) * riverWidth) := by
  have hsq : (0 : ℤ) ≤ dx * dx + dz * dz := add_nonneg (mul_self_nonneg _) (mul_self_nonneg _)
  have hcast : ((dx : ℚ) * dx + (dz : ℚ) * dz) = ((dx * dx + dz * dz : ℤ) : ℚ) := by push_cast; ring
  unfold drawCell
  simp only [hcast, sqrtLe_int _ _ hsq]
  by_cases hb : point.x + dx ≥ 0 ∧ point.x + dx < size ∧ point.z + dz ≥ 0 ∧ point.z + dz < size
  · rw [if_pos hb]
    by_cases hd : dx * dx + dz * dz ≤ (riverWidth : ℤ) * riverWidth
    · rw [if_pos hd, at2_set2]
      have hX : (point.x + dx).toNat < size := by omega
      have hZ : (point.z + dz).toNat < size := by omega
      obtain ⟨v, hv⟩ := at2_of_isGrid hg hX hZ
      by_cases hxz : x = (point.x + dx).toNat ∧ z = (point.z + dz).toNat
      · rw [if_pos hxz, hv]
        simp only [Option.map_some', true_iff]
        right
        refine ⟨by omega, by omega, by omega, by omega, hd⟩
      · rw [if_neg hxz]
        constructor
        · intro h; exact Or.inl h
        · rintro (h | ⟨_, _, h1, h2, _⟩)
          · exact h
          · exact absurd ⟨by omega, by omega⟩ hxz
    · rw [if_neg hd]
      constructor
      · intro h; exact Or.inl h
      · rintro (h | ⟨_, _, _, _, h5⟩)
        · exact h
        · exact absurd h5 hd
  · rw [if_neg hb]
    constructor
    · intro h; exact Or.inl h
    · rintro (h | ⟨h1, h2, h3, h4, _⟩)
      · exact h
      · exact absurd (by omega) hb

theorem drawCells_true {size : Nat} (riverWidth : Nat) (point : Point)
    (ds : List (ℤ × ℤ)) {riverMap : List (List Bool)} (hg : IsGrid size riverMap) :
    IsGrid size (ds.foldl (fun rm d => drawCell size riverWidth point rm d.1 d.2) riverMap)
      ∧ ∀ x z : Nat,
        at2 (ds.foldl (fun rm d => drawCell size riverWidth point rm d.1 d.2) riverMap) x z
            = some true
          ↔ at2 riverMap x z = some true
            ∨ ∃ d ∈ ds, x < size ∧ z < size ∧ (x : ℤ) = point.x + d.1 ∧ (z : ℤ) = point.z + d.2
                ∧ d.1 * d.1 + d.2 * d.2 ≤ (riverWidth : ℤ) * riverWidth := by
  induction ds generalizing riverMap with
  | nil => exact ⟨hg, by simp⟩
  | cons d ds ih =>
    obtain ⟨hg2, hiff⟩ := ih (drawCell_isGrid riverWidth point hg d.1 d.2)
    refine ⟨hg2, ?_⟩
    intro x z
    simp only [List.foldl_cons]
    rw [hiff x z, drawCell_true riverWidth point hg]
    simp only [List.mem_cons, exists_eq_or_imp]
    tauto

theorem drawPoint_true {size : Nat} (riverWidth : Nat) (point : Point)
    {riverMap : List (List Bool)} (hg : IsGrid size riverMap) :
    IsGrid size (drawPoint size riverWidth riverMap point)
      ∧ ∀ x z : Nat,
        at2 (drawPoint size riverWidth riverMap point) x z = some true
          ↔ at2 riverMap x z = some true
            ∨ (x < size ∧ z < size
                ∧ ((x : ℤ) - point.x) ^ 2 + ((z : ℤ) - point.z) ^ 2 ≤ (riverWidth : ℤ) ^ 2) := by
  unfold drawPoint
  rw [foldl_cells (fun rm dx dz => drawCell size riverWidth point rm dx dz)]
  obtain ⟨hg2, hiff⟩ := drawCells_true riverWidth point
    (cells (offsets riverWidth) (offsets riverWidth)) hg
  refine ⟨hg2, ?_⟩
  intro x z
  rw [hiff x z]
  apply or_congr Iff.rfl
  constructor
  · rintro ⟨d, _, hx, hz, h1, h2, h3⟩
    refine ⟨hx, hz, ?_⟩
    have e1 : (x : ℤ) - point.x = d.1 := by omega
    have e2 : (z : ℤ) - point.z = d.2 := by omega
    rw [e1, e2]
    nlinarith
  · rintro ⟨hx, hz, h⟩
    refine ⟨((x : ℤ) - point.x, (z : ℤ) - point.z), ?_, hx, hz, by simp, by simp,
      by dsimp only; nlinarith⟩
    rw [mem_cells, mem_offsets, mem_offsets]
    have hw : (0 : ℤ) ≤ riverWidth := by positivity
    have hx2 : ((x : ℤ) - point.x) ^ 2 ≤ (riverWidth : ℤ) ^ 2 := by nlinarith [sq_nonneg ((z : ℤ) - point.z)]
    have hz2 : ((z : ℤ) - point.z) ^ 2 ≤ (riverWidth : ℤ) ^ 2 := by nlinarith [sq_nonneg ((x : ℤ) - point.x)]
    have ax := abs_le_of_sq_le_sq' hx2 hw
    have az := abs_le_of_sq_le_sq' hz2 hw
    exact ⟨⟨ax.1, ax.2⟩, ⟨az.1, az.2⟩⟩

theorem drawPath_true {size : Nat} (riverWidth : Nat) (ps : List Point)
    {riverMap : List (List Bool)} (hg : IsGrid size riverMap) :
    IsGrid size (ps.foldl (drawPoint size riverWidth) riverMap)
      ∧ ∀ x z : Nat,
        at2 (ps.foldl (drawPoint size riverWidth) riverMap) x z = some true
          ↔ at2 riverMap x z = some true
            ∨ (x < size ∧ z < size ∧ ∃ p ∈ ps,
                ((x : ℤ) - p.x) ^ 2 + ((z : ℤ) - p.z) ^ 2 ≤ (riverWidth : ℤ) ^ 2) := by
  induction ps generalizing riverMap with
  | nil => exact ⟨hg, by simp⟩
  | cons p ps ih =>
    obtain ⟨hg1, h1⟩ := drawPoint_true riverWidth p hg
    obtain ⟨hg2, h2⟩ := ih hg1
    refine ⟨hg2, ?_⟩
    intro x z
    simp only [List.foldl_cons]
    rw [h2 x z, h1 x z]
    simp only [List.mem_cons, exists_eq_or_imp]
    tauto

/-- The mask of `generateRiver`: a grid, true exactly at the grid columns within
squared distance `riverWidth ^ 2` of a path point. -/
theorem generateRiver_true_iff (M : JSMath) (noise : NoiseGenerator) (size riverWidth : Nat) :
    IsGrid size (generateRiver M noise size riverWidth)
      ∧ ∀ x z : Nat,
          at2 (generateRiver M noise size riverWidth) x z = some true
            ↔ x < size ∧ z < size ∧ ∃ i, i ≤ 20
                ∧ ((x : ℤ) - (riverPoint M noise size i).x) ^ 2
                    + ((z : ℤ) - (riverPoint M noise size i).z) ^ 2 ≤ (riverWidth : ℤ) ^ 2 := by
  have hinit : IsGrid size
      ((List.range size).map fun _ => (List.range size).map fun _ => false) :=
    isGrid_map_range size fun _ _ => false
  have hfalse : ∀ x z : Nat,
      ¬ at2 ((List.range size).map fun _ => (List.range size).map fun _ => false) x z
          = some true := by
    intro x z h
    have hlt := at2_lt hinit h
    rw [at2_map_range size (fun _ _ => false) hlt.1 hlt.2] at h
    cases h
  refine ⟨(drawPath_true riverWidth (riverPath M noise size) hinit).1, ?_⟩
  intro x z
  unfold generateRiver
  simp only
  rw [(drawPath_true riverWidth (riverPath M noise size) hinit).2 x z]
  simp only [hfalse x z, false_or, riverPath, List.mem_map, List.mem_range]
  constructor
  · rintro ⟨hx, hz, p, ⟨i, hi, rfl⟩, hd⟩
    exact ⟨hx, hz, i, by omega, hd⟩
  · rintro ⟨hx, hz, i, hi, hd⟩
    exact ⟨hx, hz, _, ⟨i, by omega, rfl⟩, hd⟩

/-- C4 (amended): the mask returned by `generateRiver` is a `size × size` grid
that is true at column `(x, z)` exactly when the column is in the grid and one
of the 21 path points `p_i`, each computed as the program computes it with
every operation rounded to a double (`riverPoint`), lies within squared
distance `riverWidth ^ 2` of it; for `riverWidth = 0` the true columns are
exactly those path points that lie in the grid. -/
theorem generateRiver_spec (M : JSMath) (noise : NoiseGenerator) (size riverWidth : Nat) :
    IsGrid size (generateRiver M noise size riverWidth)
      ∧ (∀ x z : Nat,
          at2 (generateRiver M noise size riverWidth) x z = some true
            ↔ x < size ∧ z < size ∧ ∃ i, i ≤ 20
                ∧ ((x : ℤ) - (riverPoint M noise size i).x) ^ 2
                    + ((z : ℤ) - (riverPoint M noise size i).z) ^ 2 ≤ (riverWidth : ℤ) ^ 2)
      ∧ (∀ x z : Nat,
          at2 (generateRiver M noise size 0) x z = some true
            ↔ x < size ∧ z < size ∧ ∃ i, i ≤ 20
                ∧ riverPoint M noise size i = { x := (x : ℤ), z := (z : ℤ) }) := by
  refine ⟨(generateRiver_true_iff M noise size riverWidth).1,
    (generateRiver_true_iff M noise size riverWidth).2, ?_⟩
  intro x z
  rw [(generateRiver_true_iff M noise size 0).2 x z]
  apply and_congr Iff.rfl
  apply and_congr Iff.rfl
  apply exists_congr
  intro i
  apply and_congr Iff.rfl
  constructor
  · intro h
    have h0 : (((0 : ℕ) : ℤ)) ^ 2 = 0 := by norm_num
    rw [h0] at h
    have hx : ((x : ℤ) - (riverPoint M noise size i).x) ^ 2 ≤ 0 := by
      nlinarith [sq_nonneg ((z : ℤ) - (riverPoint M noise size i).z)]
    have hz : ((z : ℤ) - (riverPoint M noise size i).z) ^ 2 ≤ 0 := by
      nlinarith [sq_nonneg ((x : ℤ) - (riverPoint M noise size i).x)]
    have hx0 : (x : ℤ) - (riverPoint M noise size i).x = 0 := by
      have := sq_nonneg ((x : ℤ) - (riverPoint M noise size i).x)
      exact (pow_eq_zero_iff two_ne_zero).1 (le_antisymm hx this)
    have hz0 : (z : ℤ) - (riverPoint M noise size i).z = 0 := by
      have := sq_nonneg ((z : ℤ) - (riverPoint M noise size i).z)
      exact (pow_eq_zero_iff two_ne_zero).1 (le_antisymm hz this)
    cases hp : riverPoint M noise size i with
    | mk px pz =>
      rw [hp] at hx0 hz0
      simp only at hx0 hz0
      congr 1 <;> omega
  · intro h
    rw [h]
    simp

/-- C4 (counterexample): at `size = 90`, `riverWidth = 0` and noise 0 the
formula of the claim, evaluated exactly, puts path point 14 at x = 63, while
the program computes x = 62 (`(14 / 20) * 90` is `62.99999999999999`); so for
every sine with values in `[-1, 1]` the program marks a column with x = 62
that lies on none of the 21 points of the exact formula. -/
theorem generateRiver_exact_formula_fails :
    (∀ M : JSMath, (pathPoint M (constNoise 0) 90 14).x = 63
        ∧ (riverPoint M (constNoise 0) 90 14).x = 62)
      ∧ ∀ M : JSMath, (∀ a, -1 ≤ M.sin a ∧ M.sin a ≤ 1) →
          ∃ x z : Nat, at2 (generateRiver M (constNoise 0) 90 0) x z = some true
            ∧ ¬ (x < 90 ∧ z < 90 ∧ ∃ i, i ≤ 20
                ∧ ((x : ℤ) - (pathPoint M (constNoise 0) 90 i).x) ^ 2
                    + ((z : ℤ) - (pathPoint M (constNoise 0) 90 i).z) ^ 2
                  ≤ (((0 : ℕ) : ℤ)) ^ 2) := by
  refine ⟨fun M => ⟨?_, riverPoint_ninety_fourteen_x M⟩, ?_⟩
  · simp only [pathPoint, constNoise]
    rw [Int.floor_eq_iff]
    constructor <;> norm_num
  · intro M hsin
    obtain ⟨v, hz, hv1, hv2⟩ := riverPoint_z_bounds M (constNoise 0) 90 14 (by norm_num) hsin
    have hx := riverPoint_ninety_fourteen_x M
    have hz0 : (0 : ℤ) ≤ (riverPoint M (constNoise 0) 90 14).z := by
      rw [hz]
      apply Int.floor_nonneg.2
      push_cast at hv1
      linarith
    have hz1 : (riverPoint M (constNoise 0) 90 14).z < 90 := by
      rw [hz, Int.floor_lt]
      push_cast at hv2 ⊢
      linarith
    refine ⟨62, (riverPoint M (constNoise 0) 90 14).z.toNat, ?_, ?_⟩
    · rw [(generateRiver_true_iff M (constNoise 0) 90 0).2]
      refine ⟨by norm_num, by omega, 14, by norm_num, ?_⟩
      rw [hx, Int.toNat_of_nonneg hz0]
      simp
    · rintro ⟨_, _, i, hi, hd⟩
      have hsq : (((62 : ℕ) : ℤ) - (pathPoint M (constNoise 0) 90 i).x) ^ 2 ≤ 0 := by
        have h0 : (((0 : ℕ) : ℤ)) ^ 2 = 0 := by norm_num
        rw [h0] at hd
        nlinarith [sq_nonneg ((((riverPoint M (constNoise 0) 90 14).z.toNat : ℕ) : ℤ)
          - (pathPoint M (constNoise 0) 90 i).z)]
      have hx0 : ((62 : ℕ) : ℤ) - (pathPoint M (constNoise 0) 90 i).x = 0 :=
        (pow_eq_zero_iff two_ne_zero).1 (le_antisymm hsq (sq_nonneg _))
      have hp : (pathPoint M (constNoise 0) 90 i).x = 62 := by
        have : ((62 : ℕ) : ℤ) = 62 := by norm_num
        omega
      simp only [pathPoint, constNoise] at hp
      rw [Int.floor_eq_iff] at hp
      obtain ⟨h1, h2⟩ := hp
      have h3 : (124 : ℚ) ≤ 9 * (i : ℚ) := by
        push_cast at h1
        linarith
      have h4 : 9 * (i : ℚ) < 126 := by
        push_cast at h2
        linarith
      have h5 : 124 ≤ 9 * i := by exact_mod_cast h3
      have h6 : 9 * i < 126 := by exact_mod_cast h4
      omega

/-! ### generateTrees -/

theorem jsDiv_band (h maxHeight : ℚ) :
    ((jsDiv h maxHeight).gt 0.3 = true ∧ (jsDiv h maxHeight).lt 0.7 = true)
      ↔ maxHeight ≠ 0 ∧ 0.3 < h / maxHeight ∧ h / maxHeight < 0.7 := by
  unfold jsDiv
  by_cases hm : maxHeight = 0
  · simp only [hm, if_true, ne_eq, not_true_eq_false, false_and, iff_false]
    split_ifs <;> simp [JSNumber.gt, JSNumber.lt]
  · simp [hm, JSNumber.gt, JSNumber.lt]

/-- The tree pushed by the loop body at column `(x, z)` of height `h`. -/
theorem treeCell_eq (noise : NoiseGenerator) (heightMap : List (List ℤ))
    (maxHeight treeChance : ℚ) (trees : List Tree) (x z : Nat) (h : ℤ)
    (hh : at2 heightMap x z = some h) :
    treeCell noise heightMap maxHeight treeChance trees x z
      = some (if (maxHeight ≠ 0 ∧ 0.3 < (h : ℚ) / maxHeight ∧ (h : ℚ) / maxHeight < 0.7)
                ∧ noise.noise (x * 0.1) (z * 0.1) 300 > 1 - treeChance * 2
              then trees ++ [{ x := x, z := z, baseHeight := h,
                               height := 3 + Int.toNat (Int.floor (|noise.noise x z 400| * 4)) }]
              else trees) := by
  unfold treeCell
  simp only [hh, Option.bind_eq_bind, Option.some_bind, jsDiv_band]
  by_cases hb : maxHeight ≠ 0 ∧ 0.3 < (h : ℚ) / maxHeight ∧ (h : ℚ) / maxHeight < 0.7
  · by_cases hn : noise.noise (x * 0.1) (z * 0.1) 300 > 1 - treeChance * 2
    · rw [if_pos hb, if_pos hn, if_pos ⟨hb, hn⟩]; rfl
    · rw [if_pos hb, if_neg hn, if_neg (fun hc => hn hc.2)]; rfl
  · rw [if_neg hb, if_neg (fun hc => hb hc.1)]; rfl

theorem treeCells_mem {size : Nat} (noise : NoiseGenerator) (heightMap : List (List ℤ))
    (maxHeight treeChance : ℚ) (hH : IsGrid size heightMap)
    (ps : List (Nat × Nat)) (hin : ∀ p ∈ ps, p.1 < size ∧ p.2 < size) (trees : List Tree) :
    ∃ out, ps.foldlM (fun trees p => treeCell noise heightMap maxHeight treeChance trees p.1 p.2)
          trees = some out
      ∧ ∀ t, t ∈ out ↔ t ∈ trees ∨ ∃ p ∈ ps, ∃ h, at2 heightMap p.1 p.2 = some h
          ∧ (maxHeight ≠ 0 ∧ 0.3 < (h : ℚ) / maxHeight ∧ (h : ℚ) / maxHeight < 0.7)
          ∧ noise.noise (p.1 * 0.1) (p.2 * 0.1) 300 > 1 - treeChance * 2
          ∧ t = { x := p.1, z := p.2, baseHeight := h,
                  height := 3 + Int.toNat (Int.floor (|noise.noise p.1 p.2 400| * 4)) } := by
  induction ps generalizing trees with
  | nil => exact ⟨trees, rfl, by simp⟩
  | cons p ps ih =>
    have hp := hin p (List.mem_cons_self _ _)
    have hin2 : ∀ q ∈ ps, q.1 < size ∧ q.2 < size := fun q hq => hin q (List.mem_cons_of_mem _ hq)
    obtain ⟨h, hh⟩ := at2_of_isGrid hH hp.1 hp.2
    simp only [List.foldlM_cons, treeCell_eq noise heightMap maxHeight treeChance trees p.1 p.2 h hh,
      Option.bind_eq_bind, Option.some_bind]
    obtain ⟨out, hout, hmem⟩ := ih hin2
      (if (maxHeight ≠ 0 ∧ 0.3 < (h : ℚ) / maxHeight ∧ (h : ℚ) / maxHeight < 0.7)
            ∧ noise.noise (p.1 * 0.1) (p.2 * 0.1) 300 > 1 - treeChance * 2
       then trees ++ [{ x := p.1, z := p.2, baseHeight := h,
                        height := 3 + Int.toNat (Int.floor (|noise.noise p.1 p.2 400| * 4)) }]
       else trees)
    refine ⟨out, hout, ?_⟩
    intro t
    rw [hmem t]
    simp only [List.mem_cons, exists_eq_or_imp, hh, Option.some.injEq, exists_eq_left']
    by_cases hc : (maxHeight ≠ 0 ∧ 0.3 < (h : ℚ) / maxHeight ∧ (h : ℚ) / maxHeight < 0.7)
            ∧ noise.noise (p.1 * 0.1) (p.2 * 0.1) 300 > 1 - treeChance * 2
    · rw [if_pos hc]
      simp only [List.mem_append, List.mem_singleton]
      constructor
      · rintro ((h1 | h1) | h1)
        · exact Or.inl h1
        · exact Or.inr (Or.inl ⟨hc.1, hc.2, h1⟩)
        · exact Or.inr (Or.inr h1)
      · rintro (h1 | ⟨_, _, h1⟩ | h1)
        · exact Or.inl (Or.inl h1)
        · exact Or.inl (Or.inr h1)
        · exact Or.inr h1
    · rw [if_neg hc]
      constructor
      · rintro (h1 | h1)
        · exact Or.inl h1
        · exact Or.inr (Or.inr h1)
      · rintro (h1 | ⟨h1, h2, _⟩ | h1)
        · exact Or.inl h1
        · exact absurd ⟨h1, h2⟩ hc
        · exact Or.inr h1

theorem mem_interiorRange {size x : Nat} : x ∈ interiorRange size ↔ 2 ≤ x ∧ x + 2 < size := by
  simp only [interiorRange, List.mem_filter, List.mem_range, decide_eq_true_eq]
  omega

/-- The trees of `generateTrees` on a `size × size` grid: one for every interior
column that passes the height band and the noise test. -/
theorem generateTrees_mem {size : Nat} (noise : NoiseGenerator) (heightMap : List (List ℤ))
    (maxHeight treeCount : ℚ) (hH : IsGrid size heightMap) :
    ∃ trees, generateTrees noise heightMap size maxHeight treeCount = some trees
      ∧ ∀ t, t ∈ trees ↔ ∃ x z : Nat, (2 ≤ x ∧ x + 2 < size) ∧ (2 ≤ z ∧ z + 2 < size)
          ∧ ∃ h, at2 heightMap x z = some h
          ∧ (maxHeight ≠ 0 ∧ 0.3 < (h : ℚ) / maxHeight ∧ (h : ℚ) / maxHeight < 0.7)
          ∧ noise.noise (x * 0.1) (z * 0.1) 300 > 1 - treeCount / 100 * 2
          ∧ t = { x := x, z := z, baseHeight := h,
                  height := 3 + Int.toNat (Int.floor (|noise.noise x z 400| * 4)) } := by
  have hin : ∀ p ∈ cells (interiorRange size) (interiorRange size), p.1 < size ∧ p.2 < size := by
    intro p hp
    rw [mem_cells, mem_interiorRange, mem_interiorRange] at hp
    omega
  obtain ⟨out, hout, hmem⟩ :=
    treeCells_mem noise heightMap maxHeight (treeCount / 100) hH _ hin []
  refine ⟨out, ?_, ?_⟩
  · unfold generateTrees
    simp only
    rw [foldlM_cells (fun trees x z => treeCell noise heightMap maxHeight (treeCount / 100) trees x z)]
    exact hout
  · intro t
    rw [hmem t]
    simp only [List.not_mem_nil, false_or]
    constructor
    · rintro ⟨p, hp, h, h1, h2, h3, h4⟩
      rw [mem_cells, mem_interiorRange, mem_interiorRange] at hp
      exact ⟨p.1, p.2, hp.1, hp.2, h, h1, h2, h3, h4⟩
    · rintro ⟨x, z, hx, hz, h, h1, h2, h3, h4⟩
      refine ⟨(x, z), ?_, h, h1, h2, h3, h4⟩
      rw [mem_cells, mem_interiorRange, mem_interiorRange]
      exact ⟨hx, hz⟩

/-- C5: on a `size × size` height grid `generateTrees` returns a list, and each
placement in it has `baseHeight` equal to the grid's height at its `(x, z)` and
`0.3 < baseHeight / maxHeight < 0.7`; none has that ratio `≤ 0.3` or `≥ 0.7`. -/
theorem generateTrees_band (noise : NoiseGenerator) (heightMap : List (List ℤ)) (size : Nat)
    (maxHeight treeCount : ℚ) (hH : IsGrid size heightMap) :
    ∃ trees, generateTrees noise heightMap size maxHeight treeCount = some trees
      ∧ ∀ t ∈ trees,
          (∃ x z : Nat, t.x = x ∧ t.z = z ∧ at2 heightMap x z = some t.baseHeight)
          ∧ (0.3 < (t.baseHeight : ℚ) / maxHeight ∧ (t.baseHeight : ℚ) / maxHeight < 0.7)
          ∧ ¬ ((t.baseHeight : ℚ) / maxHeight ≤ 0.3 ∨ (t.baseHeight : ℚ) / maxHeight ≥ 0.7) := by
  obtain ⟨trees, hrun, hmem⟩ := generateTrees_mem noise heightMap maxHeight treeCount hH
  refine ⟨trees, hrun, ?_⟩
  intro t ht
  obtain ⟨x, z, _, _, h, hh, ⟨_, hlo, hhi⟩, _, rfl⟩ := (hmem t).1 ht
  refine ⟨⟨x, z, rfl, rfl, hh⟩, ⟨hlo, hhi⟩, ?_⟩
  rintro (hc | hc)
  · exact absurd hlo (not_lt.2 hc)
  · exact absurd hhi (not_lt.2 hc)

theorem generateTrees_band_witness :
    IsGrid 5 (List.replicate 5 (List.replicate 5 (5 : ℤ)))
      ∧ ∃ trees, generateTrees (constNoise 1) (List.replicate 5 (List.replicate 5 5)) 5 10 100
          = some trees
        ∧ ∀ t ∈ trees,
          (∃ x z : Nat, t.x = x ∧ t.z = z
              ∧ at2 (List.replicate 5 (List.replicate 5 (5 : ℤ))) x z = some t.baseHeight)
          ∧ (0.3 < (t.baseHeight : ℚ) / 10 ∧ (t.baseHeight : ℚ) / 10 < 0.7)
          ∧ ¬ ((t.baseHeight : ℚ) / 10 ≤ 0.3 ∨ (t.baseHeight : ℚ) / 10 ≥ 0.7) :=
  ⟨by decide,
    generateTrees_band (constNoise 1) (List.replicate 5 (List.replicate 5 5)) 5 10 100
      (by decide)⟩

/-- Bounds of the trunk height formula: 3 to 7 for a noise value in `[-1, 1]`,
and 3 to 6 when the value is strictly inside. -/
theorem trunkHeight_bounds (n : ℚ) (hn : |n| ≤ 1) :
    3 ≤ 3 + Int.toNat (Int.floor (|n| * 4)) ∧ 3 + Int.toNat (Int.floor (|n| * 4)) ≤ 7
      ∧ (|n| < 1 → 3 + Int.toNat (Int.floor (|n| * 4)) ≤ 6) := by
  have h0 : (0 : ℚ) ≤ |n| * 4 := by positivity
  have h4 : |n| * 4 ≤ 4 := by linarith
  have hf0 : 0 ≤ Int.floor (|n| * 4) := Int.floor_nonneg.2 h0
  have hf4 : Int.floor (|n| * 4) ≤ 4 := by
    have := Int.floor_le_floor h4
    simpa using this
  refine ⟨by omega, by omega, ?_⟩
  intro hlt
  have hf3 : Int.floor (|n| * 4) < 4 := by
    rw [Int.floor_lt]
    push_cast
    linarith
  omega

/-- C6 (the code at the failing input): with a noise source that returns 1, a
value inside `[-1, 1]`, the tree placed at column `(2, 2)` of a 5 × 5 grid gets
the trunk height `3 + floor(|1| * 4) = 7`, outside 3–6. -/
theorem generateTrees_trunk_seven :
    generateTrees (constNoise 1) (List.replicate 5 (List.replicate 5 5)) 5 10 100
      = some [{ x := 2, z := 2, baseHeight := 5, height := 7 }] := by
  simp [generateTrees, interiorRange, treeCell, at2, jsDiv, JSNumber.gt, JSNumber.lt, constNoise,
    List.range_succ, List.replicate]
  norm_num

/-- C7: with `treeCount = 0` and a noise source whose values are at most 1,
`generateTrees` returns the empty list on a `size × size` grid. -/
theorem generateTrees_zero_count (noise : NoiseGenerator) (heightMap : List (List ℤ))
    (size : Nat) (maxHeight : ℚ) (hH : IsGrid size heightMap)
    (hn : ∀ a b c, noise.noise a b c ≤ 1) :
    generateTrees noise heightMap size maxHeight 0 = some [] := by
  obtain ⟨trees, hrun, hmem⟩ := generateTrees_mem noise heightMap maxHeight 0 hH
  have hnil : trees = [] := by
    apply List.eq_nil_iff_forall_not_mem.2
    intro t ht
    obtain ⟨x, z, _, _, h, _, _, hgt, _⟩ := (hmem t).1 ht
    have h1 := hn (x * 0.1) (z * 0.1) 300
    norm_num at hgt
    linarith
  rw [hrun, hnil]

theorem generateTrees_zero_count_witness :
    IsGrid 5 (List.replicate 5 (List.replicate 5 (5 : ℤ)))
      ∧ (∀ a b c, (constNoise 1).noise a b c ≤ 1)
      ∧ generateTrees (constNoise 1) (List.replicate 5 (List.replicate 5 5)) 5 10 0 = some [] :=
  ⟨by decide, fun _ _ _ => le_refl _,
    generateTrees_zero_count (constNoise 1) (List.replicate 5 (List.replicate 5 5)) 5 10
      (by decide) (fun _ _ _ => le_refl _)⟩

/-! ### createTerrainMesh -/

theorem leavesOffsets_length : leavesOffsets.length = 32 := by decide

theorem total_add (m : BlockMap) (key : String) (b : Block) :
    (m.add key b).total = m.total + 1 := by
  induction m with
  | nil => simp [BlockMap.add, BlockMap.total]
  | cons e m ih =>
    obtain ⟨k, bs⟩ := e
    unfold BlockMap.add
    by_cases hk : k = key
    · simp only [hk, if_true, BlockMap.total, List.map_cons, List.sum_cons, List.length_append,
        List.length_singleton]
      omega
    · simp only [hk, if_false]
      simp only [BlockMap.total, List.map_cons, List.sum_cons] at ih ⊢
      omega

theorem group_add (m : BlockMap) (key : String) (b : Block) (k : String) :
    (m.add key b).group k = if key = k then m.group k ++ [b] else m.group k := by
  induction m with
  | nil =>
    by_cases hk : key = k <;> simp [BlockMap.add, BlockMap.group, hk]
  | cons e m ih =>
    obtain ⟨k0, bs⟩ := e
    unfold BlockMap.add
    by_cases h0 : k0 = key
    · subst h0
      by_cases hk : k0 = k <;> simp [BlockMap.group, hk]
    · simp only [h0, if_false]
      by_cases hk : k0 = k
      · subst hk
        simp [BlockMap.group, Ne.symm h0]
      · simp only [BlockMap.group, hk, if_false, ih]

theorem addAll_append (m : BlockMap) (l1 l2 : List (String × Block)) :
    addAll m (l1 ++ l2) = addAll (addAll m l1) l2 := by
  simp [addAll, List.foldl_append]

theorem total_addAll (m : BlockMap) (l : List (String × Block)) :
    (addAll m l).total = m.total + l.length := by
  induction l generalizing m with
  | nil => rfl
  | cons e l ih =>
    simp only [addAll, List.foldl_cons, List.length_cons] at ih ⊢
    rw [ih, total_add]
    omega

theorem group_addAll (m : BlockMap) (l : List (String × Block)) (k : String) :
    (addAll m l).group k = m.group k ++ (l.filter fun e => decide (e.1 = k)).map fun e => e.2 := by
  induction l generalizing m with
  | nil => simp [addAll]
  | cons e l ih =>
    simp only [addAll, List.foldl_cons] at ih ⊢
    rw [ih, group_add]
    by_cases hk : e.1 = k <;> simp [hk, List.filter_cons]

theorem foldlM_addAll {α : Type} (f : BlockMap → α → Option BlockMap)
    (g : α → List (String × Block)) (ps : List α)
    (hf : ∀ p ∈ ps, ∀ m, f m p = some (addAll m (g p))) (m : BlockMap) :
    ps.foldlM f m = some (addAll m (ps.flatMap g)) := by
  induction ps generalizing m with
  | nil => rfl
  | cons p ps ih =>
    have hp := hf p (List.mem_cons_self _ _) m
    have ih2 := ih (fun q hq => hf q (List.mem_cons_of_mem _ hq)) (addAll m (g p))
    simp only [List.foldlM_cons, hp, Option.bind_eq_bind, Option.some_bind, List.flatMap_cons,
      addAll_append]
    exact ih2

theorem heightAt_eq {heightMap : List (List ℤ)} {x z : Nat} {h : ℤ}
    (hh : at2 heightMap x z = some h) : heightAt heightMap x z = h := by
  simp [heightAt, hh]

theorem riverAt_eq {riverMap : List (List Bool)} {x z : Nat} {r : Bool}
    (hr : at2 riverMap x z = some r) : riverAt riverMap x z = r := by
  simp [riverAt, hr]

theorem fillCell_eq (heightMap : List (List ℤ)) (maxHeight : ℚ) (m : BlockMap) (x z : Nat)
    (h : ℤ) (hh : at2 heightMap x z = some h) :
    fillCell heightMap maxHeight m x z = some (addAll m (fillBlocks heightMap maxHeight x z)) := by
  unfold fillCell fillBlocks addAll
  rw [heightAt_eq hh]
  simp only [hh, Option.bind_eq_bind, Option.some_bind, List.foldl_map]
  rfl

theorem getMaterialForHeight_water (maxHeight : ℚ) :
    getMaterialForHeight 0 maxHeight 0 "water" = Material.water := by
  simp [getMaterialForHeight]

theorem getMaterialForHeight_wood (maxHeight : ℚ) :
    getMaterialForHeight 0 maxHeight 0 "wood" = Material.wood := by
  simp [getMaterialForHeight]

theorem getMaterialForHeight_leaves (maxHeight : ℚ) :
    getMaterialForHeight 0 maxHeight 0 "leaves" = Material.leaves := by
  simp [getMaterialForHeight]

theorem waterCell_eq (heightMap : List (List ℤ)) (riverMap : List (List Bool))
    (maxHeight : ℚ) (m : BlockMap) (x z : Nat) (h : ℤ) (r : Bool)
    (hh : at2 heightMap x z = some h) (hr : at2 riverMap x z = some r) :
    waterCell heightMap riverMap maxHeight m x z
      = some (addAll m (waterBlocks heightMap riverMap x z)) := by
  unfold waterCell waterBlocks addAll
  rw [heightAt_eq hh, riverAt_eq hr]
  cases r
  · simp [hr]
  · simp [hr, hh, getMaterialForHeight_water]

theorem trunk_eq (maxHeight : ℚ) (tree : Tree) (m : BlockMap) :
    trunk maxHeight tree m = addAll m (trunkBlocks tree) := by
  unfold trunk trunkBlocks addAll
  simp only [List.foldl_map, getMaterialForHeight_wood]

theorem leafCell_eq (random : Nat → ℚ) (size : Nat) (maxHeight : ℚ) (tree : Tree)
    (st : BlockMap × Nat) (dx dy dz : ℤ) :
    leafCell random size maxHeight tree st dx dy dz
      = if dx ^ 2 + dy ^ 2 + dz ^ 2 ≤ 4 then
          (if leafAccepted random size tree (st.2, dx, dy, dz) = true then
              (st.1).add (getMaterialKey Material.leaves)
                { x := tree.x + dx, y := tree.baseHeight + tree.height + dy, z := tree.z + dz }
            else st.1, st.2 + 1)
        else st := by
  have hs : sqrtLe ((dx : ℚ) * dx + (dy : ℚ) * dy + (dz : ℚ) * dz) 2 = true
      ↔ dx ^ 2 + dy ^ 2 + dz ^ 2 ≤ 4 := by
    have hcast : ((dx : ℚ) * dx + (dy : ℚ) * dy + (dz : ℚ) * dz)
        = ((dx ^ 2 + dy ^ 2 + dz ^ 2 : ℤ) : ℚ) := by push_cast; ring
    have hnn : (0 : ℤ) ≤ dx ^ 2 + dy ^ 2 + dz ^ 2 := by positivity
    have hnn2 : (0 : ℚ) ≤ ((dx ^ 2 + dy ^ 2 + dz ^ 2 : ℤ) : ℚ) := by exact_mod_cast hnn
    rw [hcast]
    simp only [sqrtLe, decide_eq_true_eq, hnn2, true_and]
    constructor
    · rintro ⟨_, h⟩
      have h4 : ((dx ^ 2 + dy ^ 2 + dz ^ 2 : ℤ) : ℚ) ≤ ((4 : ℤ) : ℚ) := by
        rw [Int.cast_ofNat]; linarith
      exact_mod_cast h4
    · intro h
      refine ⟨by norm_num, ?_⟩
      have h4 : ((dx ^ 2 + dy ^ 2 + dz ^ 2 : ℤ) : ℚ) ≤ ((4 : ℤ) : ℚ) := by exact_mod_cast h
      rw [Int.cast_ofNat] at h4; linarith
  unfold leafCell
  simp only [hs, getMaterialForHeight_leaves, leafAccepted, decide_eq_true_eq]
  by_cases h1 : dx ^ 2 + dy ^ 2 + dz ^ 2 ≤ 4
  · rw [if_pos h1, if_pos h1]
    by_cases h2 : random st.2 > 0.3
    · rw [if_pos h2]
      by_cases h3 : tree.x + dx ≥ 0 ∧ tree.x + dx < size ∧ tree.z + dz ≥ 0 ∧ tree.z + dz < size
      · rw [if_pos h3, if_pos ⟨h2, h3⟩]
      · rw [if_neg h3, if_neg (fun hc => h3 hc.2)]
    · rw [if_neg h2, if_neg (fun hc => h2 hc.1)]
  · rw [if_neg h1, if_neg h1]

theorem leafCells_eq (random : Nat → ℚ) (size : Nat) (maxHeight : ℚ) (tree : Tree)
    (os : List (ℤ × ℤ × ℤ)) (st : BlockMap × Nat) :
    os.foldl (fun st o => leafCell random size maxHeight tree st o.1 o.2.1 o.2.2) st
      = (addAll st.1
          ((((os.filter fun o => decide (o.1 ^ 2 + o.2.1 ^ 2 + o.2.2 ^ 2 ≤ 4)).enumFrom st.2).filter
              (leafAccepted random size tree)).map
            fun e => (getMaterialKey Material.leaves,
              ({ x := tree.x + e.2.1, y := tree.baseHeight + tree.height + e.2.2.1,
                 z := tree.z + e.2.2.2 } : Block))),
         st.2 + (os.filter fun o => decide (o.1 ^ 2 + o.2.1 ^ 2 + o.2.2 ^ 2 ≤ 4)).length) := by
  induction os generalizing st with
  | nil => simp [addAll]
  | cons o os ih =>
    obtain ⟨dx, dy, dz⟩ := o
    simp only [List.foldl_cons]
    rw [ih, leafCell_eq]
    by_cases h1 : dx ^ 2 + dy ^ 2 + dz ^ 2 ≤ 4
    · rw [if_pos h1]
      by_cases h2 : leafAccepted random size tree (st.2, dx, dy, dz) = true
      · simp only [h1, h2, if_true, List.filter_cons, decide_True, List.enumFrom_cons,
          List.map_cons, List.length_cons, addAll, List.foldl_cons]
        congr 1
        omega
      · simp only [h1, h2, if_true, if_false, List.filter_cons, decide_True, List.enumFrom_cons,
          List.length_cons, Bool.false_eq_true]
        congr 1
        omega
    · rw [if_neg h1]
      simp only [h1, List.filter_cons, decide_False, Bool.false_eq_true, if_false]

theorem canopy_eq (random : Nat → ℚ) (size : Nat) (maxHeight : ℚ) (tree : Tree)
    (st : BlockMap × Nat) :
    canopy random size maxHeight tree st
      = (addAll st.1 (canopyBlocks random size tree st.2), st.2 + 32) := by
  have inner : ∀ (dx : ℤ) (st : BlockMap × Nat),
      (fromTo (-1) 2).foldl
          (fun st dy => (fromTo (-2) 2).foldl
            (fun st dz => leafCell random size maxHeight tree st dx dy dz) st) st
        = (cells (fromTo (-1) 2) (fromTo (-2) 2)).foldl
            (fun st p => leafCell random size maxHeight tree st dx p.1 p.2) st :=
    fun dx st => foldl_cells (fun st dy dz => leafCell random size maxHeight tree st dx dy dz) _ _ st
  unfold canopy
  simp only [inner]
  rw [foldl_cells (fun st dx (p : ℤ × ℤ) => leafCell random size maxHeight tree st dx p.1 p.2)
    (fromTo (-2) 2) (cells (fromTo (-1) 2) (fromTo (-2) 2)) st]
  rw [leafCells_eq]
  have hlen := leavesOffsets_length
  unfold leavesOffsets at hlen
  rw [hlen]
  rfl

theorem addTree_eq (random : Nat → ℚ) (size : Nat) (maxHeight : ℚ) (st : BlockMap × Nat)
    (tree : Tree) :
    addTree random size maxHeight st tree
      = (addAll st.1 (trunkBlocks tree ++ canopyBlocks random size tree st.2), st.2 + 32) := by
  unfold addTree
  rw [canopy_eq, trunk_eq, addAll_append]

theorem addTrees_eq (random : Nat → ℚ) (size : Nat) (maxHeight : ℚ) (trees : List Tree)
    (m : BlockMap) (first : Nat) :
    trees.foldl (addTree random size maxHeight) (m, 32 * first)
      = (addAll m (treeBlocks random size trees first), 32 * (first + trees.length)) := by
  induction trees generalizing m first with
  | nil => simp [treeBlocks, addAll]
  | cons t ts ih =>
    simp only [List.foldl_cons, addTree_eq]
    have e : 32 * first + 32 = 32 * (first + 1) := by ring
    rw [e, ih]
    simp only [treeBlocks, List.enumFrom_cons, List.flatMap_cons, addAll_append, List.length_cons]
    congr 2
    omega

/-- On `size × size` grids `createTerrainMesh` collects, in this order, the
terrain fill, the water caps and the tree blocks. -/
theorem createTerrainMesh_eq (random : Nat → ℚ) (heightMap : List (List ℤ))
    (riverMap : List (List Bool)) (trees : List Tree) (size : Nat) (maxHeight : ℚ)
    (hH : IsGrid size heightMap) (hR : IsGrid size riverMap) :
    createTerrainMesh random heightMap riverMap trees size maxHeight
      = some (addAll []
          (terrainBlocks heightMap maxHeight size ++ riverBlocks heightMap riverMap size
            ++ treeBlocks random size trees 0)) := by
  have hin : ∀ p ∈ cells (List.range size) (List.range size), p.1 < size ∧ p.2 < size := by
    intro p hp
    simpa [mem_cells] using hp
  have h1 : (List.range size).foldlM
      (fun m x => (List.range size).foldlM (fun m z => fillCell heightMap maxHeight m x z) m) []
        = some (addAll [] (terrainBlocks heightMap maxHeight size)) := by
    rw [foldlM_cells (fun m x z => fillCell heightMap maxHeight m x z)]
    apply foldlM_addAll
    intro p hp m
    obtain ⟨h, hh⟩ := at2_of_isGrid hH (hin p hp).1 (hin p hp).2
    exact fillCell_eq heightMap maxHeight m p.1 p.2 h hh
  have h2 : ∀ m, (List.range size).foldlM
      (fun m x => (List.range size).foldlM
        (fun m z => waterCell heightMap riverMap maxHeight m x z) m) m
        = some (addAll m (riverBlocks heightMap riverMap size)) := by
    intro m
    rw [foldlM_cells (fun m x z => waterCell heightMap riverMap maxHeight m x z)]
    apply foldlM_addAll
    intro p hp m
    obtain ⟨h, hh⟩ := at2_of_isGrid hH (hin p hp).1 (hin p hp).2
    obtain ⟨r, hr⟩ := at2_of_isGrid hR (hin p hp).1 (hin p hp).2
    exact waterCell_eq heightMap riverMap maxHeight m p.1 p.2 h r hh hr
  have h3 := addTrees_eq random size maxHeight trees
    (addAll (addAll [] (terrainBlocks heightMap maxHeight size))
      (riverBlocks heightMap riverMap size)) 0
  unfold createTerrainMesh
  simp only [h1, h2, Option.bind_eq_bind, Option.some_bind]
  rw [Nat.mul_zero] at h3
  rw [h3, addAll_append, addAll_append]
  rfl

theorem length_flatMap_sum {α β : Type} (l : List α) (f : α → List β) :
    (l.flatMap f).length = (l.map fun a => (f a).length).sum := by
  induction l with
  | nil => rfl
  | cons a l ih => simp [List.flatMap_cons, ih]

theorem sum_map_range (f : Nat → ℤ) (n : Nat) :
    ((List.range n).map f).sum = ∑ i ∈ Finset.range n, f i := by
  induction n with
  | zero => simp
  | succ n ih => simp [List.range_succ, Finset.sum_range_succ, ih]

theorem sum_map_cells (f : Nat → Nat → ℤ) (xs zs : List Nat) :
    ((cells xs zs).map fun p => f p.1 p.2).sum
      = (xs.map fun x => (zs.map fun z => f x z).sum).sum := by
  induction xs with
  | nil => rfl
  | cons x xs ih =>
    simp only [cells, List.flatMap_cons, List.map_append, List.sum_append, List.map_map,
      List.map_cons, List.sum_cons]
    rw [← ih]
    rfl

theorem sum_cells_range (f : Nat → Nat → ℤ) (n : Nat) :
    ((cells (List.range n) (List.range n)).map fun p => f p.1 p.2).sum
      = ∑ x ∈ Finset.range n, ∑ z ∈ Finset.range n, f x z := by
  rw [sum_map_cells, sum_map_range]
  apply Finset.sum_congr rfl
  intro x _
  rw [sum_map_range]

theorem length_fromTo (lo hi : ℤ) : (fromTo lo hi).length = (hi + 1 - lo).toNat := by
  simp [fromTo]

theorem length_treeBlocks (random : Nat → ℚ) (size : Nat) (trees : List Tree) (first : Nat) :
    (treeBlocks random size trees first).length
      = (trees.map fun t => t.height).sum
        + ((trees.enumFrom first).map fun it =>
            ((leavesOffsets.enumFrom (32 * it.1)).filter
              (leafAccepted random size it.2)).length).sum := by
  induction trees generalizing first with
  | nil => rfl
  | cons t ts ih =>
    have ih2 := ih (first + 1)
    simp only [treeBlocks, List.enumFrom_cons, List.flatMap_cons, List.length_append,
      List.map_cons, List.sum_cons] at ih2 ⊢
    rw [ih2]
    simp only [trunkBlocks, canopyBlocks, List.length_map, length_fromTo]
    have e : ((t.height : ℤ) + 1 - 1).toNat = t.height := by omega
    rw [e]
    omega

/-- C8: on a `size × size` grid of non-negative heights, the number of block
positions collected by `createTerrainMesh` over all material groups is the sum
over all columns of `surfaceHeight + 1`, plus the number of true mask columns,
plus the sum of the trunk heights, plus the number of canopy offsets inside the
sphere that pass the random test and fall inside the grid in x and z. -/
theorem createTerrainMesh_total (random : Nat → ℚ) (heightMap : List (List ℤ))
    (riverMap : List (List Bool)) (trees : List Tree) (size : Nat) (maxHeight : ℚ)
    (hH : IsGrid size heightMap) (hR : IsGrid size riverMap)
    (hpos : ∀ x z, x < size → z < size → 0 ≤ heightAt heightMap x z) :
    ∃ m, createTerrainMesh random heightMap riverMap trees size maxHeight = some m
      ∧ (m.total : ℤ)
        = (∑ x ∈ Finset.range size, ∑ z ∈ Finset.range size, (heightAt heightMap x z + 1))
          + (∑ x ∈ Finset.range size, ∑ z ∈ Finset.range size,
              if riverAt riverMap x z = true then 1 else 0)
          + (trees.map fun t => (t.height : ℤ)).sum
          + (canopyCount random size trees : ℤ) := by
  refine ⟨_, createTerrainMesh_eq random heightMap riverMap trees size maxHeight hH hR, ?_⟩
  have hin : ∀ p ∈ cells (List.range size) (List.range size), p.1 < size ∧ p.2 < size := by
    intro p hp
    simpa [mem_cells] using hp
  have hfill : ((terrainBlocks heightMap maxHeight size).length : ℤ)
      = ∑ x ∈ Finset.range size, ∑ z ∈ Finset.range size, (heightAt heightMap x z + 1) := by
    rw [← sum_cells_range (fun x z => heightAt heightMap x z + 1)]
    unfold terrainBlocks
    rw [length_flatMap_sum, Nat.cast_list_sum, List.map_map]
    congr 1
    apply List.map_congr_left
    intro p hp
    have h0 := hpos p.1 p.2 (hin p hp).1 (hin p hp).2
    simp only [Function.comp, fillBlocks, List.length_map, length_fromTo]
    omega
  have hwater : ((riverBlocks heightMap riverMap size).length : ℤ)
      = ∑ x ∈ Finset.range size, ∑ z ∈ Finset.range size,
          if riverAt riverMap x z = true then 1 else 0 := by
    rw [← sum_cells_range (fun x z => if riverAt riverMap x z = true then 1 else 0)]
    unfold riverBlocks
    rw [length_flatMap_sum, Nat.cast_list_sum, List.map_map]
    congr 1
    apply List.map_congr_left
    intro p _
    simp only [Function.comp, waterBlocks]
    split_ifs <;> simp
  have htree : ((treeBlocks random size trees 0).length : ℤ)
      = (trees.map fun t => (t.height : ℤ)).sum + (canopyCount random size trees : ℤ) := by
    rw [length_treeBlocks]
    unfold canopyCount List.enum
    push_cast
    simp only [List.map_map]
    rfl
  rw [total_addAll, List.length_append, List.length_append]
  push_cast
  rw [hfill, hwater, htree]
  simp [BlockMap.total]
  ring

theorem createTerrainMesh_total_witness :
    ∃ m, createTerrainMesh (fun _ => 1) [[1, 2], [1, 0]] [[true, false], [false, false]]
          [{ x := 0, z := 0, baseHeight := 1, height := 3 }] 2 10 = some m
      ∧ (m.total : ℤ) = 25 := by
  obtain ⟨m, hm, ht⟩ := createTerrainMesh_total (fun _ => 1) [[1, 2], [1, 0]]
    [[true, false], [false, false]] [{ x := 0, z := 0, baseHeight := 1, height := 3 }] 2 10
    (by decide) (by decide)
    (by intro x z hx hz; interval_cases x <;> interval_cases z <;> decide)
  refine ⟨m, hm, ?_⟩
  rw [ht]
  have hc : canopyCount (fun _ => 1) 2 [{ x := 0, z := 0, baseHeight := 1, height := 3 }] = 13 := by
    have hacc : leafAccepted (fun _ => 1) 2 { x := 0, z := 0, baseHeight := 1, height := 3 }
          = fun e => decide (0 ≤ e.2.1 ∧ e.2.1 < 2 ∧ 0 ≤ e.2.2.2 ∧ e.2.2.2 < 2) := by
      funext e
      simp only [leafAccepted, zero_add, ge_iff_le, Nat.cast_ofNat]
      congr 1
      norm_num
    simp only [canopyCount, List.enum, List.enumFrom_cons, List.enumFrom_nil, List.map_cons,
      List.map_nil, List.sum_cons, List.sum_nil, hacc]
    decide
  rw [hc]
  decide

theorem getMaterialKey_injective (a b : Material) (h : getMaterialKey a = getMaterialKey b) :
    a = b := by
  cases a <;> cases b <;> first | rfl | exact absurd h (by decide)

theorem terrain_ne_water (y maxHeight surfaceHeight : ℚ) :
    getMaterialForHeight y maxHeight surfaceHeight "terrain" ≠ Material.water := by
  have e1 : ("terrain" = "water") = False := by decide
  have e2 : ("terrain" = "wood") = False := by decide
  have e3 : ("terrain" = "leaves") = False := by decide
  have e4 : ("terrain" = "snow") = False := by decide
  unfold getMaterialForHeight
  simp only [e1, e2, e3, e4, if_false]
  split_ifs <;> decide

theorem filter_eq_nil_of_keys (l : List (String × Block)) (k : String)
    (h : ∀ e ∈ l, e.1 ≠ k) : (l.filter fun e => decide (e.1 = k)) = [] := by
  apply List.filter_eq_nil_iff.2
  intro e he
  simpa using h e he

theorem filter_eq_self_of_keys (l : List (String × Block)) (k : String)
    (h : ∀ e ∈ l, e.1 = k) : (l.filter fun e => decide (e.1 = k)) = l := by
  apply List.filter_eq_self.2
  intro e he
  simpa using h e he

theorem terrainBlocks_keys (heightMap : List (List ℤ)) (maxHeight : ℚ) (size : Nat) :
    ∀ e ∈ terrainBlocks heightMap maxHeight size, e.1 ≠ getMaterialKey Material.water := by
  intro e he
  simp only [terrainBlocks, fillBlocks, List.mem_flatMap, List.mem_map] at he
  obtain ⟨p, _, y, _, rfl⟩ := he
  intro hc
  exact terrain_ne_water _ _ _ (getMaterialKey_injective _ _ hc)

theorem treeBlocks_keys (random : Nat → ℚ) (size : Nat) (trees : List Tree) (first : Nat) :
    ∀ e ∈ treeBlocks random size trees first, e.1 ≠ getMaterialKey Material.water := by
  intro e he
  simp only [treeBlocks, trunkBlocks, canopyBlocks, List.mem_flatMap, List.mem_append,
    List.mem_map] at he
  have hw : getMaterialKey Material.wood ≠ getMaterialKey Material.water := by decide
  have hl : getMaterialKey Material.leaves ≠ getMaterialKey Material.water := by decide
  obtain ⟨it, _, h | h⟩ := he
  · obtain ⟨y, _, rfl⟩ := h
    exact hw
  · obtain ⟨o, _, rfl⟩ := h
    exact hl

theorem riverBlocks_keys (heightMap : List (List ℤ)) (riverMap : List (List Bool)) (size : Nat) :
    ∀ e ∈ riverBlocks heightMap riverMap size, e.1 = getMaterialKey Material.water := by
  intro e he
  simp only [riverBlocks, waterBlocks, List.mem_flatMap] at he
  obtain ⟨p, _, h⟩ := he
  split_ifs at h
  · simp only [List.mem_singleton] at h
    rw [h]
  · cases h

theorem map_flatMap_cells {α : Type} (g : Nat × Nat → List α) (xs zs : List Nat) :
    (cells xs zs).flatMap g = xs.flatMap fun x => zs.flatMap fun z => g (x, z) := by
  have inner : ∀ (x : Nat) (l : List Nat),
      (l.map fun z => (x, z)).flatMap g = l.flatMap fun z => g (x, z) := by
    intro x l
    induction l with
    | nil => rfl
    | cons z l ihz => simp only [List.map_cons, List.flatMap_cons, ihz]
  induction xs with
  | nil => rfl
  | cons x xs ih =>
    simp only [cells, List.flatMap_cons, List.flatMap_append] at ih ⊢
    rw [ih, inner]

theorem riverBlocks_positions (heightMap : List (List ℤ)) (riverMap : List (List Bool))
    (size : Nat) :
    (riverBlocks heightMap riverMap size).map (fun e => e.2)
      = (List.range size).flatMap fun x => (List.range size).filterMap fun z =>
          if riverAt riverMap x z = true then
            some ({ x := x, y := heightAt heightMap x z + 1, z := z } : Block)
          else none := by
  unfold riverBlocks
  rw [map_flatMap_cells]
  generalize hzs : List.range size = zs
  have hgen : ∀ xs : List Nat,
      (xs.flatMap fun x => zs.flatMap fun z => waterBlocks heightMap riverMap (x, z).1 (x, z).2).map
          (fun e => e.2)
        = xs.flatMap fun x => zs.filterMap fun z =>
            if riverAt riverMap x z = true then
              some ({ x := x, y := heightAt heightMap x z + 1, z := z } : Block)
            else none := by
    intro xs
    have inner : ∀ (x : Nat) (l : List Nat),
        (l.flatMap fun z => waterBlocks heightMap riverMap x z).map (fun e => e.2)
          = l.filterMap fun z =>
              if riverAt riverMap x z = true then
                some ({ x := x, y := heightAt heightMap x z + 1, z := z } : Block)
              else none := by
      intro x l
      induction l with
      | nil => rfl
      | cons z l ih =>
        simp only [List.flatMap_cons, List.map_append, List.filterMap_cons]
        rw [ih]
        unfold waterBlocks
        by_cases hr : riverAt riverMap x z = true <;> simp [hr]
    induction xs with
    | nil => rfl
    | cons x xs ih =>
      simp only [List.flatMap_cons, List.map_append, inner, ih]
  exact hgen zs

/-- C9: on `size × size` grids the water group collected by `createTerrainMesh`
is exactly the sequence of positions `(x, heightMap[x][z] + 1, z)` of the
columns whose mask entry is true, in raster order (x outer, z inner); no
terrain-fill, trunk or canopy block is in it. -/
theorem createTerrainMesh_water (random : Nat → ℚ) (heightMap : List (List ℤ))
    (riverMap : List (List Bool)) (trees : List Tree) (size : Nat) (maxHeight : ℚ)
    (hH : IsGrid size heightMap) (hR : IsGrid size riverMap) :
    ∃ m, createTerrainMesh random heightMap riverMap trees size maxHeight = some m
      ∧ m.group (getMaterialKey Material.water)
        = (List.range size).flatMap fun x => (List.range size).filterMap fun z =>
            if riverAt riverMap x z = true then
              some ({ x := x, y := heightAt heightMap x z + 1, z := z } : Block)
            else none := by
  refine ⟨_, createTerrainMesh_eq random heightMap riverMap trees size maxHeight hH hR, ?_⟩
  rw [group_addAll, List.filter_append, List.filter_append,
    filter_eq_nil_of_keys _ _ (terrainBlocks_keys heightMap maxHeight size),
    filter_eq_nil_of_keys _ _ (treeBlocks_keys random size trees 0),
    filter_eq_self_of_keys _ _ (riverBlocks_keys heightMap riverMap size),
    List.nil_append, List.append_nil, riverBlocks_positions]
  rfl

theorem createTerrainMesh_water_witness :
    ∃ m, createTerrainMesh (fun _ => 1) [[1, 2], [1, 0]] [[true, false], [false, true]]
          [{ x := 0, z := 0, baseHeight := 1, height := 3 }] 2 10 = some m
      ∧ m.group (getMaterialKey Material.water)
        = [{ x := 0, y := 2, z := 0 }, { x := 1, y := 1, z := 1 }] := by
  obtain ⟨m, hm, hg⟩ := createTerrainMesh_water (fun _ => 1) [[1, 2], [1, 0]]
    [[true, false], [false, true]] [{ x := 0, z := 0, baseHeight := 1, height := 3 }] 2 10
    (by decide) (by decide)
  refine ⟨m, hm, ?_⟩
  rw [hg]
  decide

/-! ### The scenario `size = 8`, `riverWidth = 0` -/

/-- C10 (counterexample): with `size = 8`, `riverWidth = 0` and a noise source
that returns 0, a value in `[-1, 1]`, path point 0 is `(0, floor(2.4)) = (0, 2)`
and `generateRiver` marks that column: the mask is not all-false. -/
theorem generateRiver_width_zero_marks :
    (∀ a b c, -1 ≤ (constNoise 0).noise a b c ∧ (constNoise 0).noise a b c ≤ 1)
      ∧ at2 (generateRiver exampleMath (constNoise 0) 8 0) 0 2 = some true := by
  refine ⟨fun a b c => by norm_num [constNoise], ?_⟩
  rw [(generateRiver_true_iff exampleMath (constNoise 0) 8 0).2 0 2]
  refine ⟨by norm_num, by norm_num, 0, by norm_num, ?_⟩
  rw [riverPoint_eight_zero]
  norm_num

/-- C10 (amended): with `size = 8` and `riverWidth = 0`, whatever values in
`[-1, 1]` the noise source (and the sine) returns, the mask returned by
`generateRiver` is not all-false: path point 10 has x in `{3, 4}` and z in
`0 .. 4`, so it lies in the grid, and its column is marked as river. -/
theorem generateRiver_width_zero_size_eight (M : JSMath) (noise : NoiseGenerator)
    (hsin : ∀ a, -1 ≤ M.sin a ∧ M.sin a ≤ 1)
    (hn : ∀ a b c, -1 ≤ noise.noise a b c ∧ noise.noise a b c ≤ 1) :
    ∃ x z : Nat, (x = 3 ∨ x = 4) ∧ z ≤ 4
      ∧ riverPoint M noise 8 10 = { x := (x : ℤ), z := (z : ℤ) }
      ∧ at2 (generateRiver M noise 8 0) x z = some true := by
  obtain ⟨hx1, hx2⟩ := riverPoint_eight_ten_x M noise hn
  obtain ⟨v, hz, hv1, hv2⟩ := riverPoint_z_bounds M noise 8 10 (by norm_num) hsin
  have hz1 : (0 : ℤ) ≤ (riverPoint M noise 8 10).z := by
    rw [hz]
    apply Int.floor_nonneg.2
    push_cast at hv1
    linarith
  have hz2 : (riverPoint M noise 8 10).z < 5 := by
    rw [hz, Int.floor_lt]
    push_cast at hv2 ⊢
    linarith
  have hx0 : (0 : ℤ) ≤ (riverPoint M noise 8 10).x := by omega
  refine ⟨(riverPoint M noise 8 10).x.toNat, (riverPoint M noise 8 10).z.toNat,
    by omega, by omega, ?_, ?_⟩
  · rw [Int.toNat_of_nonneg hx0, Int.toNat_of_nonneg hz1]
  · rw [(generateRiver_true_iff M noise 8 0).2]
    refine ⟨by omega, by omega, 10, by norm_num, ?_⟩
    rw [Int.toNat_of_nonneg hx0, Int.toNat_of_nonneg hz1]
    simp

theorem generateRiver_width_zero_size_eight_witness :
    (∀ a, -1 ≤ exampleMath.sin a ∧ exampleMath.sin a ≤ 1)
      ∧ ∃ x z : Nat, (x = 3 ∨ x = 4) ∧ z ≤ 4
        ∧ riverPoint exampleMath (constNoise 0) 8 10 = { x := (x : ℤ), z := (z : ℤ) }
        ∧ at2 (generateRiver exampleMath (constNoise 0) 8 0) x z = some true :=
  ⟨fun a => by norm_num [exampleMath],
    generateRiver_width_zero_size_eight exampleMath (constNoise 0)
      (fun a => by norm_num [exampleMath]) (fun a b c => by norm_num [constNoise])⟩

/-! ### generateTerrain and the random source -/

/-- With a threshold of at least 1 (`treeCount ≤ 0`) and noise values at most 1,
no column passes the acceptance test and the tree list is empty. -/
theorem generateTrees_none_accepted (noise : NoiseGenerator) (heightMap : List (List ℤ))
    (size : Nat) (maxHeight treeCount : ℚ) (hH : IsGrid size heightMap)
    (hcount : treeCount ≤ 0) (hn : ∀ a b c, noise.noise a b c ≤ 1) :
    generateTrees noise heightMap size maxHeight treeCount = some [] := by
  obtain ⟨trees, hrun, hmem⟩ := generateTrees_mem noise heightMap maxHeight treeCount hH
  have hnil : trees = [] := by
    apply List.eq_nil_iff_forall_not_mem.2
    intro t ht
    obtain ⟨x, z, _, _, h, _, _, hgt, _⟩ := (hmem t).1 ht
    have h1 := hn (x * 0.1) (z * 0.1) 300
    have h2 : treeCount / 100 * 2 ≤ 0 := by linarith
    linarith
  rw [hrun, hnil]

/-- C11: with `treeCount = 0` and a noise source whose values are at most 1, the
pipeline of `generateTerrain` returns a map of block groups, and two runs with
the same parameters and noise function but different random sources return the
same map: the same groups with the same positions in the same order. -/
theorem generateTerrain_random_independent (M : JSMath) (newNoiseGenerator : ℤ → NoiseGenerator)
    (params : TerrainParams) (random1 random2 : Nat → ℚ)
    (hcount : params.treeCount = 0)
    (hn : ∀ a b c, (newNoiseGenerator params.seed).noise a b c ≤ 1) :
    ∃ m, generateTerrain M newNoiseGenerator random1 params = some m
      ∧ generateTerrain M newNoiseGenerator random2 params = some m := by
  have hG : IsGrid params.size
      (generateHeightMap M (newNoiseGenerator params.seed) params.size params.maxHeight
        params.noiseScale params.mountainHeight) := isGrid_map_range params.size _
  have hR := (generateRiver_true_iff M (newNoiseGenerator params.seed) params.size
    params.riverWidth).1
  obtain ⟨carved, hrun, hgrid, _⟩ := applyRiverToTerrain_cells params.size _ _ hG hR
  have htrees := generateTrees_none_accepted (newNoiseGenerator params.seed) carved params.size
    params.maxHeight params.treeCount hgrid (le_of_eq hcount) hn
  have hmesh : ∀ random : Nat → ℚ,
      generateTerrain M newNoiseGenerator random params
        = some (addAll []
            (terrainBlocks carved params.maxHeight params.size
              ++ riverBlocks carved
                  (generateRiver M (newNoiseGenerator params.seed) params.size params.riverWidth)
                  params.size)) := by
    intro random
    unfold generateTerrain
    simp only [hrun, htrees, Option.bind_eq_bind, Option.some_bind]
    rw [createTerrainMesh_eq random carved _ [] params.size params.maxHeight hgrid hR]
    simp [treeBlocks]
  exact ⟨_, hmesh random1, hmesh random2⟩

theorem generateTerrain_random_independent_witness :
    ∃ m, generateTerrain exampleMath (fun _ => constNoise 0) (fun _ => 0)
            { size := 4, maxHeight := 10, noiseScale := 0.1, seed := 1, mountainHeight := 1,
              treeCount := 0, riverWidth := 0 } = some m
      ∧ generateTerrain exampleMath (fun _ => constNoise 0) (fun _ => 1)
            { size := 4, maxHeight := 10, noiseScale := 0.1, seed := 1, mountainHeight := 1,
              treeCount := 0, riverWidth := 0 } = some m :=
  generateTerrain_random_independent exampleMath (fun _ => constNoise 0)
    { size := 4, maxHeight := 10, noiseScale := 0.1, seed := 1, mountainHeight := 1,
      treeCount := 0, riverWidth := 0 } (fun _ => 0) (fun _ => 1) rfl
    (fun _ _ _ => by norm_num [constNoise])

/-! ### Trees and the grid border -/

/-- C12: every tree placed by `generateTrees` on a `size × size` grid keeps all
candidate canopy offsets `dx, dz` in `[-2, 2]` inside the grid in x and z, so
the bounds test of the canopy loop body never discards a block of such a tree:
inside the sphere the body pushes the leaf block whenever the random draw
exceeds 0.3. -/
theorem generateTrees_canopy_in_grid (noise : NoiseGenerator) (heightMap : List (List ℤ))
    (size : Nat) (maxHeight treeCount : ℚ) (hH : IsGrid size heightMap) :
    ∃ trees, generateTrees noise heightMap size maxHeight treeCount = some trees
      ∧ ∀ t ∈ trees, ∀ dx dz : ℤ, -2 ≤ dx → dx ≤ 2 → -2 ≤ dz → dz ≤ 2 →
          (0 ≤ t.x + dx ∧ t.x + dx < size ∧ 0 ≤ t.z + dz ∧ t.z + dz < size)
          ∧ ∀ (random : Nat → ℚ) (st : BlockMap × Nat) (dy : ℤ),
              leafCell random size maxHeight t st dx dy dz
                = if dx ^ 2 + dy ^ 2 + dz ^ 2 ≤ 4 then
                    (if random st.2 > 0.3 then
                        (st.1).add (getMaterialKey Material.leaves)
                          { x := t.x + dx, y := t.baseHeight + t.height + dy, z := t.z + dz }
                      else st.1, st.2 + 1)
                  else st := by
  obtain ⟨trees, hrun, hmem⟩ := generateTrees_mem noise heightMap maxHeight treeCount hH
  refine ⟨trees, hrun, ?_⟩
  intro t ht dx dz hx1 hx2 hz1 hz2
  obtain ⟨x, z, hx, hz, h, _, _, _, rfl⟩ := (hmem t).1 ht
  have hb : 0 ≤ (x : ℤ) + dx ∧ (x : ℤ) + dx < size ∧ 0 ≤ (z : ℤ) + dz ∧ (z : ℤ) + dz < size := by
    omega
  refine ⟨hb, ?_⟩
  intro random st dy
  rw [leafCell_eq]
  have hacc : leafAccepted random size
      { x := x, z := z, baseHeight := h,
        height := 3 + Int.toNat (Int.floor (|noise.noise x z 400| * 4)) } (st.2, dx, dy, dz)
        = decide (random st.2 > 0.3) := by
    simp only [leafAccepted, ge_iff_le, hb, and_self, and_true]
  rw [hacc]
  simp only [decide_eq_true_eq]

theorem generateTrees_canopy_in_grid_witness :
    IsGrid 5 (List.replicate 5 (List.replicate 5 (5 : ℤ)))
      ∧ ∃ trees, generateTrees (constNoise 1) (List.replicate 5 (List.replicate 5 5)) 5 10 100
          = some trees
        ∧ ∀ t ∈ trees, ∀ dx dz : ℤ, -2 ≤ dx → dx ≤ 2 → -2 ≤ dz → dz ≤ 2 →
          (0 ≤ t.x + dx ∧ t.x + dx < (5 : ℕ) ∧ 0 ≤ t.z + dz ∧ t.z + dz < (5 : ℕ))
          ∧ ∀ (random : Nat → ℚ) (st : BlockMap × Nat) (dy : ℤ),
              leafCell random 5 10 t st dx dy dz
                = if dx ^ 2 + dy ^ 2 + dz ^ 2 ≤ 4 then
                    (if random st.2 > 0.3 then
                        (st.1).add (getMaterialKey Material.leaves)
                          { x := t.x + dx, y := t.baseHeight + t.height + dy, z := t.z + dz }
                      else st.1, st.2 + 1)
                  else st :=
  ⟨by decide,
    generateTrees_canopy_in_grid (constNoise 1) (List.replicate 5 (List.replicate 5 5)) 5 10 100
      (by decide)⟩

/-! ### The surface rules -/

/-- The guard of the third rule (`surfaceHeight > maxHeight * 0.6`) never holds
once the snow guard and the grass guard have both failed. -/
theorem stone_guard_unreachable (maxHeight surfaceHeight : ℚ)
    (hsnow : ¬ surfaceHeight > maxHeight * 0.8)
    (hgrass : ¬ (surfaceHeight > maxHeight * 0.3 ∧ surfaceHeight ≤ maxHeight * 0.8)) :
    ¬ surfaceHeight > maxHeight * 0.6 := by
  intro hstone
  have h1 : surfaceHeight ≤ maxHeight * 0.8 := not_lt.1 hsnow
  have h2 : surfaceHeight ≤ maxHeight * 0.3 := by
    by_contra hc
    exact hgrass ⟨not_le.1 hc, h1⟩
  have h3 : maxHeight * 0.6 < maxHeight * 0.3 := lt_of_lt_of_le hstone h2
  have h4 : maxHeight * 0.6 < maxHeight * 0.8 := lt_of_lt_of_le hstone h1
  norm_num at h3 h4
  linarith

/-- A surface voxel above `0.6 * maxHeight`, `maxHeight > 0`, is classified snow
or grass, never stone. -/
theorem surface_above_six_tenths (maxHeight surfaceHeight : ℚ) (hmax : 0 < maxHeight)
    (hs : surfaceHeight > 0.6 * maxHeight) :
    getMaterialForHeight surfaceHeight maxHeight surfaceHeight "terrain" = Material.snow
      ∨ getMaterialForHeight surfaceHeight maxHeight surfaceHeight "terrain"
          = Material.grass := by
  have e1 : ("terrain" = "water") = False := by decide
  have e2 : ("terrain" = "wood") = False := by decide
  have e3 : ("terrain" = "leaves") = False := by decide
  have e4 : ("terrain" = "snow") = False := by decide
  unfold getMaterialForHeight
  simp only [e1, e2, e3, e4, if_false, true_and]
  by_cases hsnow : surfaceHeight > maxHeight * 0.8
  · rw [if_pos hsnow]
    exact Or.inl rfl
  · rw [if_neg hsnow]
    have hg : surfaceHeight > maxHeight * 0.3 ∧ surfaceHeight ≤ maxHeight * 0.8 := by
      constructor
      · have : maxHeight * 0.3 < 0.6 * maxHeight := by linarith
        linarith
      · exact not_lt.1 hsnow
    rw [if_pos hg]
    exact Or.inr rfl

/-- C13 (the code at the failing input): the surface voxel `y = surfaceHeight = 7`
of a column with `maxHeight = 10` lies above `0.6 * maxHeight`, the range named
by the rule "stone surface on high mountains", and is classified grass: the
grass rule, tested first, takes it. -/
theorem getMaterialForHeight_surface_seven :
    (7 : ℚ) > 0.6 * 10
      ∧ getMaterialForHeight 7 10 7 "terrain" = Material.grass := by
  refine ⟨by norm_num, ?_⟩
  have e1 : ("terrain" = "water") = False := by decide
  have e2 : ("terrain" = "wood") = False := by decide
  have e3 : ("terrain" = "leaves") = False := by decide
  have e4 : ("terrain" = "snow") = False := by decide
  unfold getMaterialForHeight
  simp only [e1, e2, e3, e4, if_false, true_and]
  norm_num

/-! ### Trees grow on grass -/

/-- C14: for `maxHeight > 0`, each placement returned by `generateTrees` on a
`size × size` grid stands on a column whose surface voxel is classified grass. -/
theorem generateTrees_on_grass (noise : NoiseGenerator) (heightMap : List (List ℤ))
    (size : Nat) (maxHeight treeCount : ℚ) (hH : IsGrid size heightMap)
    (hmax : 0 < maxHeight) :
    ∃ trees, generateTrees noise heightMap size maxHeight treeCount = some trees
      ∧ ∀ t ∈ trees,
          getMaterialForHeight (t.baseHeight : ℚ) maxHeight (t.baseHeight : ℚ) "terrain"
            = Material.grass := by
  obtain ⟨trees, hrun, hmem⟩ := generateTrees_mem noise heightMap maxHeight treeCount hH
  refine ⟨trees, hrun, ?_⟩
  intro t ht
  obtain ⟨x, z, _, _, h, _, ⟨_, hlo, hhi⟩, _, rfl⟩ := (hmem t).1 ht
  have h1 : maxHeight * 0.3 < (h : ℚ) := by
    have := (lt_div_iff₀ hmax).1 hlo
    linarith
  have h2 : (h : ℚ) < maxHeight * 0.7 := by
    have := (div_lt_iff₀ hmax).1 hhi
    linarith
  have hsnow : ¬ (h : ℚ) > maxHeight * 0.8 := by
    have : maxHeight * 0.7 < maxHeight * 0.8 := by linarith
    exact not_lt.2 (by linarith)
  have hgrass : (h : ℚ) > maxHeight * 0.3 ∧ (h : ℚ) ≤ maxHeight * 0.8 := by
    constructor
    · exact h1
    · linarith
  have e1 : ("terrain" = "water") = False := by decide
  have e2 : ("terrain" = "wood") = False := by decide
  have e3 : ("terrain" = "leaves") = False := by decide
  have e4 : ("terrain" = "snow") = False := by decide
  unfold getMaterialForHeight
  simp only [e1, e2, e3, e4, if_false, true_and]
  rw [if_neg hsnow, if_pos hgrass]

theorem generateTrees_on_grass_witness :
    IsGrid 5 (List.replicate 5 (List.replicate 5 (5 : ℤ))) ∧ (0 : ℚ) < 10
      ∧ ∃ trees, generateTrees (constNoise 1) (List.replicate 5 (List.replicate 5 5)) 5 10 100
          = some trees
        ∧ ∀ t ∈ trees,
            getMaterialForHeight (t.baseHeight : ℚ) 10 (t.baseHeight : ℚ) "terrain"
              = Material.grass :=
  ⟨by decide, by norm_num,
    generateTrees_on_grass (constNoise 1) (List.replicate 5 (List.replicate 5 5)) 5 10 100
      (by decide) (by norm_num)⟩

/-! ### Material keys -/

/-- C15: `getMaterialByKey(getMaterialKey(m))` returns `m` for each of the eight
materials, and two different materials never get the same key. -/
theorem getMaterialKey_roundtrip :
    (∀ m : Material, getMaterialByKey (getMaterialKey m) = m)
      ∧ Function.Injective getMaterialKey := by
  refine ⟨?_, ?_⟩
  · intro m
    cases m <;> decide
  · intro a b h
    exact getMaterialKey_injective a b h

end VoxelTerrain
